import Mathlib

/-!
Verification of the xcstrings catalog core: document model, normalizer,
update engine and serializer, embedded from `src/store.rs` and
`src/apple_json_formatter.rs`.
-/

/-- Mirror of `XcStringUnit` (src/store.rs): `{ state, value }`, both optional. -/
structure XcStringUnit where
  state : Option String
  value : Option String
deriving DecidableEq, Repr

/-- Mirror of `VariationContext` (src/store.rs): context for variation validation. -/
inductive VariationContext where
  | topLevel
  | nestedUnderPlural
  | nestedUnderDevice
deriving DecidableEq, Repr

mutual
/-- Mirror of `XcLocalization` (src/store.rs). Ordered maps (`IndexMap`) are
embedded as association lists preserving insertion order. -/
inductive XcLocalization where
  | mk (string_unit : Option XcStringUnit)
       (substitutions : List (String × XcSubstitution))
       (variations : List (String × List (String × XcLocalization)))

/-- Mirror of `XcSubstitution` (src/store.rs). -/
inductive XcSubstitution where
  | mk (arg_num : Option Int)
       (format_specifier : Option String)
       (string_unit : Option XcStringUnit)
       (variations : List (String × List (String × XcLocalization)))
end

/-- Projection: `XcLocalization.string_unit`. -/
def XcLocalization.string_unit : XcLocalization → Option XcStringUnit
  | .mk u _ _ => u

/-- Projection: `XcLocalization.substitutions`. -/
def XcLocalization.substitutions : XcLocalization → List (String × XcSubstitution)
  | .mk _ s _ => s

/-- Projection: `XcLocalization.variations`. -/
def XcLocalization.variations : XcLocalization → List (String × List (String × XcLocalization))
  | .mk _ _ v => v

/-- Projection: `XcSubstitution.arg_num`. -/
def XcSubstitution.arg_num : XcSubstitution → Option Int
  | .mk a _ _ _ => a

/-- Projection: `XcSubstitution.format_specifier`. -/
def XcSubstitution.format_specifier : XcSubstitution → Option String
  | .mk _ f _ _ => f

/-- Projection: `XcSubstitution.string_unit`. -/
def XcSubstitution.string_unit : XcSubstitution → Option XcStringUnit
  | .mk _ _ u _ => u

/-- Projection: `XcSubstitution.variations`. -/
def XcSubstitution.variations : XcSubstitution → List (String × List (String × XcLocalization))
  | .mk _ _ _ v => v

/-- `IndexMap::get`-style lookup on an association list (first match). -/
def lookupKey? (m : List (String × α)) (k : String) : Option α :=
  (m.find? (fun p => p.1 == k)).map (·.2)

/-- `IndexMap::contains_key` on an association list. -/
def containsKey (m : List (String × α)) (k : String) : Bool :=
  m.any (fun p => p.1 == k)

/-- `IndexMap::shift_remove` on a duplicate-free association list: drop the
entry with key `k`, preserving the order of the rest. -/
def removeKey (m : List (String × α)) (k : String) : List (String × α) :=
  m.filter (fun p => p.1 != k)

/-- `IndexMap::insert`: replace in place when the key exists, else append. -/
def insertKey (m : List (String × α)) (k : String) (v : α) : List (String × α) :=
  if containsKey m k then m.map (fun p => if p.1 == k then (k, v) else p)
  else m ++ [(k, v)]

/-- `IndexMap::entry(k).or_insert_with(d)` followed by an in-place mutation `f`:
update the entry for `k` in place, appending `(k, f d)` when absent. -/
def entryModify (k : String) (d : α) (f : α → α) : List (String × α) → List (String × α)
  | [] => [(k, f d)]
  | (k', v) :: rest =>
    if k' == k then (k', f v) :: rest else (k', v) :: entryModify k d f rest

/-- `IndexMap::entry(k).or_insert_with(v)` with no further mutation. -/
def entryOrInsert (m : List (String × α)) (k : String) (v : α) : List (String × α) :=
  if containsKey m k then m else m ++ [(k, v)]

/-- Executable mirror of `str::trim`: drop leading and trailing whitespace.
Written over the character list so that it evaluates by kernel reduction. -/
def strTrim (s : String) : String :=
  ⟨((s.data.dropWhile Char.isWhitespace).reverse.dropWhile Char.isWhitespace).reverse⟩

/-- `s.trim().is_empty()`: the string is whitespace-only. -/
def strBlank (s : String) : Bool :=
  (strTrim s).data.isEmpty

/-- Mirror of `is_blank` (src/store.rs): `None` or whitespace-only. -/
def is_blank (v : Option String) : Bool :=
  (v.map (fun s => strBlank s)).getD true

/-- Mirror of `sanitize_string_unit` (src/store.rs): blank value is dropped only
when the state is absent; a blank state is dropped; a present value with an
absent state gets the default state `"translated"`. -/
def sanitize_string_unit (u : XcStringUnit) : XcStringUnit :=
  let v1 : Option String :=
    if is_blank u.value && u.state.isNone then none else u.value
  let s1 : Option String :=
    if is_blank u.state then none else u.state
  let s2 : Option String :=
    if v1.isSome && s1.isNone then some "translated" else s1
  ⟨s2, v1⟩

/-- Mirror of `string_unit_has_content` (src/store.rs). -/
def string_unit_has_content (u : XcStringUnit) : Bool :=
  u.value.isSome || u.state.isSome

/-- Mirror of `localization_is_empty` (src/store.rs). -/
def localization_is_empty (loc : XcLocalization) : Bool :=
  ((loc.string_unit.map (fun u => !string_unit_has_content u)).getD true)
    && loc.variations.isEmpty && loc.substitutions.isEmpty

/-- Mirror of `substitution_is_empty` (src/store.rs). -/
def substitution_is_empty (sub : XcSubstitution) : Bool :=
  ((sub.string_unit.map (fun u => !string_unit_has_content u)).getD true)
    && sub.variations.isEmpty && sub.arg_num.isNone && sub.format_specifier.isNone

/-- Context transition used inside `validate_and_normalize_variations`. -/
def nestedContext (ctx : VariationContext) (selector : String) : VariationContext :=
  match ctx, selector with
  | .topLevel, "plural" => .nestedUnderPlural
  | .topLevel, "device" => .nestedUnderDevice
  | .nestedUnderDevice, "plural" => .nestedUnderPlural
  | c, _ => c

/-- The context-specific selector rule of `validate_and_normalize_variations`:
at top level `"device"` is removed when `"plural"` is also present; in nested
contexts `"device"` is removed whenever present. -/
def applyVariationRule (ctx : VariationContext)
    (vars : List (String × List (String × XcLocalization))) :
    List (String × List (String × XcLocalization)) :=
  match ctx with
  | .topLevel =>
    if containsKey vars "plural" && containsKey vars "device" then
      removeKey vars "device"
    else vars
  | _ =>
    if containsKey vars "device" then removeKey vars "device" else vars

/-- Final step of `validate_and_normalize_variations`: drop selectors whose
case set became empty. -/
def dropEmptySelectors (vars : List (String × List (String × XcLocalization))) :
    List (String × List (String × XcLocalization)) :=
  vars.filter (fun p => !p.2.isEmpty)

/-- The string-unit part of `normalize_localization_inner` /
`normalize_substitution`: sanitize, then drop the unit if it has no content. -/
def normUnitOpt (u : Option XcStringUnit) : Option XcStringUnit :=
  let u1 := u.map sanitize_string_unit
  if (u1.map (fun x => !string_unit_has_content x)).getD false then none else u1

mutual
/-- Mirror of `normalize_localization_inner` (src/store.rs), returning the
normalized localization (the Rust function mutates in place and returns its
emptiness, which is `localization_is_empty` of the result). -/
def normalize_localization_inner (ctx : VariationContext) :
    XcLocalization → XcLocalization
  | .mk u subs vars =>
    .mk (normUnitOpt u) (normalizeSubsList subs)
      (dropEmptySelectors (applyVariationRule ctx (normalizeSelectors ctx vars)))

/-- Mirror of `normalize_substitution` (src/store.rs). -/
def normalize_substitution : XcSubstitution → XcSubstitution
  | .mk a f u vars =>
    .mk a f (normUnitOpt u)
      (dropEmptySelectors (applyVariationRule .topLevel
        (normalizeSelectors .topLevel vars)))

/-- The per-selector recursion of `validate_and_normalize_variations`:
normalize every case under the nested context. -/
def normalizeSelectors (ctx : VariationContext) :
    List (String × List (String × XcLocalization)) →
    List (String × List (String × XcLocalization))
  | [] => []
  | (sel, cases) :: rest =>
    (sel, normalizeCases (nestedContext ctx sel) cases) :: normalizeSelectors ctx rest

/-- The `cases.retain(...)` loop: normalize each case, dropping empty results. -/
def normalizeCases (ctx : VariationContext) :
    List (String × XcLocalization) → List (String × XcLocalization)
  | [] => []
  | (k, loc) :: rest =>
    let l := normalize_localization_inner ctx loc
    if localization_is_empty l then normalizeCases ctx rest
    else (k, l) :: normalizeCases ctx rest

/-- The `substitutions.retain(...)` loop of `normalize_localization_inner`. -/
def normalizeSubsList : List (String × XcSubstitution) → List (String × XcSubstitution)
  | [] => []
  | (k, s) :: rest =>
    let s' := normalize_substitution s
    if substitution_is_empty s' then normalizeSubsList rest
    else (k, s') :: normalizeSubsList rest
end

/-- Mirror of `validate_and_normalize_variations` (src/store.rs). -/
def validate_and_normalize_variations (ctx : VariationContext)
    (vars : List (String × List (String × XcLocalization))) :
    List (String × List (String × XcLocalization)) :=
  dropEmptySelectors (applyVariationRule ctx (normalizeSelectors ctx vars))

/-- Mirror of `normalize_localization` (src/store.rs). -/
def normalize_localization (loc : XcLocalization) : XcLocalization :=
  normalize_localization_inner .topLevel loc

/-- Mirror of `placeholder_localization` (src/store.rs). -/
def placeholder_localization : XcLocalization :=
  .mk (some ⟨some "needs-translation", none⟩) [] []

/-- Mirror of `extract_translation_value` (src/store.rs). -/
def extract_translation_value (loc : XcLocalization) : Option String :=
  loc.string_unit.bind (fun u => u.value)

/-- Normal form of an optional string unit: absent, or sanitize-stable with
content (exactly what normalization leaves behind). -/
def unitNF (u : Option XcStringUnit) : Bool :=
  match u with
  | none => true
  | some x => (sanitize_string_unit x == x) && string_unit_has_content x

/-- The selector rule as a predicate: what `applyVariationRule` enforces. -/
def ruleOK (ctx : VariationContext)
    (vars : List (String × List (String × XcLocalization))) : Bool :=
  match ctx with
  | .topLevel => !(containsKey vars "plural" && containsKey vars "device")
  | _ => !containsKey vars "device"

mutual
/-- Normal-form predicate for a localization under a variation context:
fixed points of `normalize_localization_inner`. -/
def locNF (ctx : VariationContext) : XcLocalization → Bool
  | .mk u subs vars =>
    unitNF u && subsNF subs && ruleOK ctx vars && selsNF ctx vars
      && vars.all (fun p => !p.2.isEmpty)

/-- Normal-form predicate for a substitution. -/
def subNF : XcSubstitution → Bool
  | .mk _ _ u vars =>
    unitNF u && ruleOK .topLevel vars && selsNF .topLevel vars
      && vars.all (fun p => !p.2.isEmpty)

/-- Every selector's cases are in normal form under the nested context. -/
def selsNF (ctx : VariationContext) :
    List (String × List (String × XcLocalization)) → Bool
  | [] => true
  | (sel, cases) :: rest => casesNF (nestedContext ctx sel) cases && selsNF ctx rest

/-- Every case is a normalized, non-empty localization. -/
def casesNF (ctx : VariationContext) : List (String × XcLocalization) → Bool
  | [] => true
  | (_, l) :: rest => locNF ctx l && !localization_is_empty l && casesNF ctx rest

/-- Every substitution is normalized and non-empty. -/
def subsNF : List (String × XcSubstitution) → Bool
  | [] => true
  | (_, s) :: rest => subNF s && !substitution_is_empty s && subsNF rest
end

/-- Mirror of `XcStringEntry` (src/store.rs). -/
structure XcStringEntry where
  comment : Option String
  extraction_state : Option String
  localizations : List (String × XcLocalization)
  should_translate : Option Bool

/-- Default `XcStringEntry` (all fields empty), as `XcStringEntry::default()`. -/
def defaultEntry : XcStringEntry := ⟨none, none, [], none⟩

/-- Default `XcLocalization`, as `XcLocalization::default()`. -/
def defaultLoc : XcLocalization := .mk none [] []

/-- Default `XcSubstitution`, as `XcSubstitution::default()`. -/
def defaultSub : XcSubstitution := .mk none none none []

/-- Mirror of `FormatVersion` (src/store.rs): string or integer. -/
inductive FormatVersion where
  | string (s : String)
  | integer (n : Int)

/-- The JSON value dialect used by the Catalog Writer.

Modelled from the spec: the repository's `Cargo.toml` is not under `src/`, so
the `serde_json` `preserve_order` configuration making `serde_json::Map`
order-preserving is taken from the spec ("member order follows the ordered
mapping's traversal order, not any sort order"); objects are association lists
preserving member order. -/
inductive JsonValue where
  | null
  | bool (b : Bool)
  | num (n : Int)
  | str (s : String)
  | arr (xs : List JsonValue)
  | obj (members : List (String × JsonValue))

/-- Mirror of `XcStringsFile` (src/store.rs): cached parsed fields plus the
raw order-preserving JSON object kept for field-order fidelity. -/
structure XcStringsFile where
  raw : List (String × JsonValue)
  version : String
  format_version : Option FormatVersion
  source_language : String
  strings : List (String × XcStringEntry)

/-- Mirror of `XcStringsFile::default()` (src/store.rs). -/
def defaultFile : XcStringsFile :=
  { raw := [("version", .str "1.0"), ("sourceLanguage", .str "en"),
            ("strings", .obj [])]
    version := "1.0"
    format_version := none
    source_language := "en"
    strings := [] }

/-- The `localizations.retain(|_, loc| !normalize_localization(loc))` loop of
`normalize_strings_file`: normalize each localization, dropping empty ones. -/
def normLocsList : List (String × XcLocalization) → List (String × XcLocalization)
  | [] => []
  | (k, l) :: rest =>
    let l' := normalize_localization l
    if localization_is_empty l' then normLocsList rest
    else (k, l') :: normLocsList rest

/-- Normalization of one entry's localizations, as performed inside
`normalize_strings_file`'s retain closure. -/
def normalizeEntry (e : XcStringEntry) : XcStringEntry :=
  { e with localizations := normLocsList e.localizations }

/-- The retain predicate of `normalize_strings_file`: an entry with no
localizations is kept only if it carries comment, extractionState or
shouldTranslate. -/
def keepEntry (e : XcStringEntry) : Bool :=
  if e.localizations.isEmpty then
    e.comment.isSome || e.extraction_state.isSome || e.should_translate.isSome
  else true

/-- The `strings` part of `normalize_strings_file`. -/
def normalizeStringsList (l : List (String × XcStringEntry)) :
    List (String × XcStringEntry) :=
  (l.map (fun p => (p.1, normalizeEntry p.2))).filter (fun p => keepEntry p.2)

/-- Mirror of `normalize_strings_file` (src/store.rs). -/
def normalize_strings_file (doc : XcStringsFile) : XcStringsFile :=
  { doc with
    version := if strBlank doc.version then "1.0" else doc.version
    source_language :=
      if strBlank doc.source_language then "en" else doc.source_language
    strings := normalizeStringsList doc.strings }

/-- Entry part of the pruning invariant (claim C5): zero localizations forces
retained metadata. -/
def entryInvariant (e : XcStringEntry) : Bool :=
  !e.localizations.isEmpty || e.comment.isSome || e.extraction_state.isSome
    || e.should_translate.isSome

/-- Document-wide pruning invariant. -/
def docEntryInvariant (d : XcStringsFile) : Bool :=
  d.strings.all (fun p => entryInvariant p.2)

/-- Abbreviation for the recursive variations map shape. -/
abbrev VariationMap := List (String × List (String × XcLocalization))

/-- Abbreviation for one selector's case map. -/
abbrev CaseMap := List (String × XcLocalization)

mutual
/-- Mirror of `TranslationValue` (src/store.rs): flattened read-model of a
localization. -/
inductive TranslationValue where
  | mk (state : Option String) (value : Option String)
       (substitutions : List (String × SubstitutionValue))
       (variations : List (String × List (String × TranslationValue)))

/-- Mirror of `SubstitutionValue` (src/store.rs). -/
inductive SubstitutionValue where
  | mk (state : Option String) (value : Option String)
       (arg_num : Option Int) (format_specifier : Option String)
       (variations : List (String × List (String × TranslationValue)))
end

mutual
/-- Mirror of `TranslationValue::from_localization` (src/store.rs). -/
def TranslationValue.from_localization : XcLocalization → TranslationValue
  | .mk u subs vars =>
    .mk (u.bind (·.state)) (u.bind (·.value)) (subsToValues subs) (varsToValues vars)

/-- Mirror of `SubstitutionValue::from_substitution` (src/store.rs). -/
def SubstitutionValue.from_substitution : XcSubstitution → SubstitutionValue
  | .mk a f u vars =>
    .mk (u.bind (·.state)) (u.bind (·.value)) a f (varsToValues vars)

/-- Map substitutions to their read-model values. -/
def subsToValues : List (String × XcSubstitution) → List (String × SubstitutionValue)
  | [] => []
  | (k, s) :: rest => (k, SubstitutionValue.from_substitution s) :: subsToValues rest

/-- Map a variations tree to its read-model values. -/
def varsToValues : VariationMap → List (String × List (String × TranslationValue))
  | [] => []
  | (sel, cases) :: rest => (sel, casesToValues cases) :: varsToValues rest

/-- Map one selector's cases to their read-model values. -/
def casesToValues : CaseMap → List (String × TranslationValue)
  | [] => []
  | (k, l) :: rest => (k, TranslationValue.from_localization l) :: casesToValues rest
end

mutual
/-- Mirror of `TranslationUpdate` (src/store.rs): each scalar field is
tri-state (`none` = leave unchanged, `some none` = explicit clear,
`some (some v)` = explicit value). -/
inductive TranslationUpdate where
  | mk (state : Option (Option String)) (value : Option (Option String))
       (substitutions : Option (List (String × Option SubstitutionUpdate)))
       (variations : Option (List (String × List (String × TranslationUpdate))))

/-- Mirror of `SubstitutionUpdate` (src/store.rs). -/
inductive SubstitutionUpdate where
  | mk (state : Option (Option String)) (value : Option (Option String))
       (arg_num : Option (Option Int)) (format_specifier : Option (Option String))
       (variations : Option (List (String × List (String × TranslationUpdate))))
end

/-- Mirror of `TranslationUpdate::from_value_state` (src/store.rs). -/
def TranslationUpdate.from_value_state (value state : Option String) : TranslationUpdate :=
  let ns := if (value.map (fun v => !v.data.isEmpty)).getD false then
      (match state with | some s => some s | none => some "translated")
    else state
  .mk (some ns) (some value) none none

mutual
/-- Mirror of `apply_update` (src/store.rs): merge a tri-state update into a
localization, sanitizing the unit and re-validating merged variations. -/
def apply_update : XcLocalization → TranslationUpdate → XcLocalization
  | .mk u0 subs0 vars0, .mk ustate uvalue usubs uvars =>
    let unit : XcStringUnit := u0.getD ⟨none, none⟩
    let unit := match ustate with | some st => { unit with state := st } | none => unit
    let unit := match uvalue with | some v => { unit with value := v } | none => unit
    let unit := sanitize_string_unit unit
    let su : Option XcStringUnit :=
      if string_unit_has_content unit then some unit else none
    let vars1 := match uvars with
      | none => vars0
      | some ups =>
        validate_and_normalize_variations .topLevel (mergeVariationLists vars0 [] ups)
    let subs1 := match usubs with
      | none => subs0
      | some ups => mergeSubstitutionLists subs0 [] ups
    .mk su subs1 vars1

/-- Mirror of `apply_substitution_update` (src/store.rs). -/
def apply_substitution_update : XcSubstitution → SubstitutionUpdate → XcSubstitution
  | .mk a0 f0 u0 vars0, .mk ustate uvalue uarg ufmt uvars =>
    let unit : XcStringUnit := u0.getD ⟨none, none⟩
    let unit := match uvalue with | some v => { unit with value := v } | none => unit
    let unit := match ustate with | some st => { unit with state := st } | none => unit
    let unit := sanitize_string_unit unit
    let su : Option XcStringUnit :=
      if string_unit_has_content unit then some unit else none
    let a1 := match uarg with | some a => a | none => a0
    let f1 := match ufmt with | some f => f | none => f0
    let vars1 := match uvars with
      | none => vars0
      | some ups =>
        validate_and_normalize_variations .topLevel (mergeVariationLists vars0 [] ups)
    .mk a1 f1 su vars1

/-- The variations-merging loop of `apply_update`: updated selector/case pairs
are merged first (moving to the front, in update order), then untouched
non-empty existing selectors are appended. -/
def mergeVariationLists (existing acc : VariationMap) :
    List (String × List (String × TranslationUpdate)) → VariationMap
  | [] => acc ++ existing.filter (fun p => !p.2.isEmpty)
  | (sel, casesUpd) :: rest =>
    let selEntry := (lookupKey? existing sel).getD []
    let existing1 := removeKey existing sel
    let selEntry1 := mergeCaseList selEntry casesUpd
    let acc1 := if selEntry1.isEmpty then acc else insertKey acc sel selEntry1
    mergeVariationLists existing1 acc1 rest

/-- The per-case merging loop inside `apply_update`'s variations step. -/
def mergeCaseList (selEntry : CaseMap) : List (String × TranslationUpdate) → CaseMap
  | [] => selEntry
  | (caseKey, nestedUpd) :: rest =>
    let nested := (lookupKey? selEntry caseKey).getD defaultLoc
    let selEntry1 := removeKey selEntry caseKey
    let nested1 := apply_update nested nestedUpd
    let selEntry2 :=
      if localization_is_empty nested1 then selEntry1
      else insertKey selEntry1 caseKey nested1
    mergeCaseList selEntry2 rest

/-- The substitutions-merging loop of `apply_update`: an explicit-null update
deletes the substitution, a payload creates-or-merges it. -/
def mergeSubstitutionLists (existing acc : List (String × XcSubstitution)) :
    List (String × Option SubstitutionUpdate) → List (String × XcSubstitution)
  | [] => acc ++ existing.filter (fun p => !substitution_is_empty p.2)
  | (name, maybeUpd) :: rest =>
    match maybeUpd with
    | some su =>
      let s := (lookupKey? existing name).getD defaultSub
      let existing1 := removeKey existing name
      let s1 := apply_substitution_update s su
      let acc1 := if substitution_is_empty s1 then acc else insertKey acc name s1
      mergeSubstitutionLists existing1 acc1 rest
    | none => mergeSubstitutionLists (removeKey existing name) acc rest
end

/-- Mirror of `StoreError` (src/store.rs), the pure (non-I/O) variants. -/
inductive StoreErr where
  | translationMissing (key language : String)
  | keyMissing (k : String)
  | keyExists (k : String)
  | languageMissing (l : String)
  | languageExists (l : String)
  | invalidLanguage (reason : String)
  | cannotRemoveSourceLanguage (l : String)
  | cannotRenameSourceLanguage (l : String)
deriving DecidableEq, Repr

/-- Does a language appear in some entry's localizations? -/
def langInEntries (d : XcStringsFile) (l : String) : Bool :=
  d.strings.any (fun p => containsKey p.2.localizations l)

/-- Mirror of `XcStringsStore::get_translation` (src/store.rs). -/
def get_translation (d : XcStringsFile) (key language : String) : Option TranslationValue :=
  ((lookupKey? d.strings key).bind (fun e => lookupKey? e.localizations language)).map
    TranslationValue.from_localization

/-- The strings mutation performed by `upsert_translation`: create entry and
localization as needed, then merge the update in place. -/
def upsertStrings (d : XcStringsFile) (key language : String)
    (upd : TranslationUpdate) : List (String × XcStringEntry) :=
  entryModify key defaultEntry
    (fun e =>
      let locs1 := entryModify language defaultLoc (fun l => apply_update l upd)
        e.localizations
      { e with localizations := locs1 })
    d.strings

/-- Mirror of `XcStringsStore::upsert_translation` (src/store.rs): merge, read
the resulting content, then normalize and persist the document. -/
def doc_upsert (d : XcStringsFile) (key language : String)
    (upd : TranslationUpdate) : TranslationValue × XcStringsFile :=
  let strings1 := upsertStrings d key language upd
  let merged :=
    ((lookupKey? strings1 key).bind (fun e => lookupKey? e.localizations language)).getD
      defaultLoc
  (TranslationValue.from_localization merged,
    normalize_strings_file { d with strings := strings1 })

/-- Mirror of `XcStringsStore::delete_translation` (src/store.rs). -/
def delete_translation (d : XcStringsFile) (key language : String) :
    Except StoreErr XcStringsFile :=
  match lookupKey? d.strings key with
  | some e =>
    if containsKey e.localizations language then
      let e1 : XcStringEntry := { e with localizations := removeKey e.localizations language }
      let strings1 :=
        if e1.localizations.isEmpty then removeKey d.strings key
        else entryModify key defaultEntry (fun _ => e1) d.strings
      .ok (normalize_strings_file { d with strings := strings1 })
    else .error (.translationMissing key language)
  | none => .error (.translationMissing key language)

/-- Mirror of `XcStringsStore::delete_key` (src/store.rs). -/
def delete_key (d : XcStringsFile) (key : String) : Except StoreErr XcStringsFile :=
  if containsKey d.strings key then
    .ok (normalize_strings_file { d with strings := removeKey d.strings key })
  else .error (.keyMissing key)

/-- Mirror of `XcStringsStore::rename_key` (src/store.rs). -/
def rename_key (d : XcStringsFile) (oldKey newKey : String) :
    Except StoreErr XcStringsFile :=
  if oldKey = newKey then .ok d
  else if containsKey d.strings newKey then .error (.keyExists newKey)
  else
    match lookupKey? d.strings oldKey with
    | none => .error (.keyMissing oldKey)
    | some e =>
      .ok (normalize_strings_file
        { d with strings := insertKey (removeKey d.strings oldKey) newKey e })

/-- Mirror of `XcStringsStore::set_comment` (src/store.rs). -/
def set_comment (d : XcStringsFile) (key : String) (comment : Option String) :
    XcStringsFile :=
  normalize_strings_file
    { d with strings :=
        entryModify key defaultEntry (fun e => { e with comment := comment }) d.strings }

/-- Mirror of `XcStringsStore::set_extraction_state` (src/store.rs). -/
def set_extraction_state (d : XcStringsFile) (key : String) (st : Option String) :
    XcStringsFile :=
  normalize_strings_file
    { d with strings :=
        entryModify key defaultEntry (fun e => { e with extraction_state := st }) d.strings }

/-- Mirror of `XcStringsStore::set_should_translate` (src/store.rs). -/
def set_should_translate (d : XcStringsFile) (key : String) (b : Option Bool) :
    XcStringsFile :=
  normalize_strings_file
    { d with strings :=
        entryModify key defaultEntry (fun e => { e with should_translate := b }) d.strings }

/-- Mirror of `XcStringsStore::add_language` (src/store.rs). -/
def add_language (d : XcStringsFile) (language : String) :
    Except StoreErr XcStringsFile :=
  let trimmed := strTrim language
  if trimmed.data.isEmpty then
    .error (.invalidLanguage "Language code cannot be empty")
  else if trimmed == d.source_language || langInEntries d trimmed then
    .error (.languageExists trimmed)
  else
    let strings1 := d.strings.map (fun p =>
      let locs1 := entryOrInsert p.2.localizations trimmed placeholder_localization
      (p.1, { p.2 with localizations := locs1 }))
    .ok (normalize_strings_file { d with strings := strings1 })

/-- Mirror of `XcStringsStore::remove_language` (src/store.rs). -/
def remove_language (d : XcStringsFile) (language : String) :
    Except StoreErr XcStringsFile :=
  let trimmed := strTrim language
  if trimmed.data.isEmpty then
    .error (.invalidLanguage "Language code cannot be empty")
  else if trimmed == d.source_language then
    .error (.cannotRemoveSourceLanguage trimmed)
  else if !langInEntries d trimmed then .error (.languageMissing trimmed)
  else
    let strings1 := d.strings.map (fun p =>
      (p.1, { p.2 with localizations := removeKey p.2.localizations trimmed }))
    let strings2 := strings1.filter (fun p => !p.2.localizations.isEmpty)
    .ok (normalize_strings_file { d with strings := strings2 })

/-- Relocation of one entry's localizations in `update_language`. -/
def relocateLocs (ot nt : String) (locs : List (String × XcLocalization)) :
    List (String × XcLocalization) :=
  match lookupKey? locs ot with
  | some l => insertKey (removeKey locs ot) nt l
  | none => locs

/-- Mirror of `XcStringsStore::update_language` (src/store.rs), the
language-rename operation. -/
def update_language (d : XcStringsFile) (oldLanguage newLanguage : String) :
    Except StoreErr XcStringsFile :=
  let ot := strTrim oldLanguage
  if ot.data.isEmpty then
    .error (.invalidLanguage "Language code cannot be empty")
  else
    let nt := strTrim newLanguage
    if nt.data.isEmpty then
      .error (.invalidLanguage "Language code cannot be empty")
    else if ot == nt then .ok d
    else if ot == d.source_language then .error (.cannotRenameSourceLanguage ot)
    else if !langInEntries d ot then .error (.languageMissing ot)
    else if langInEntries d nt then .error (.languageExists nt)
    else
      let strings1 := d.strings.map (fun p =>
        (p.1, { p.2 with localizations := relocateLocs ot nt p.2.localizations }))
      .ok (normalize_strings_file { d with strings := strings1 })

/-- The catalog store's mutating operations, as pure document transformers. -/
inductive StoreOp where
  | upsertTranslation (key language : String) (upd : TranslationUpdate)
  | deleteTranslation (key language : String)
  | deleteKey (key : String)
  | renameKey (oldKey newKey : String)
  | setComment (key : String) (c : Option String)
  | setExtractionState (key : String) (s : Option String)
  | setShouldTranslate (key : String) (b : Option Bool)
  | addLanguage (code : String)
  | removeLanguage (code : String)
  | renameLanguage (oldCode newCode : String)

/-- Document-level semantics of each mutating store operation (the document
committed to memory and disk on the success path). -/
def applyOp : StoreOp → XcStringsFile → Except StoreErr XcStringsFile
  | .upsertTranslation k l u, d => .ok (doc_upsert d k l u).2
  | .deleteTranslation k l, d => delete_translation d k l
  | .deleteKey k, d => delete_key d k
  | .renameKey o n, d => rename_key d o n
  | .setComment k c, d => .ok (set_comment d k c)
  | .setExtractionState k s, d => .ok (set_extraction_state d k s)
  | .setShouldTranslate k b, d => .ok (set_should_translate d k b)
  | .addLanguage c, d => add_language d c
  | .removeLanguage c, d => remove_language d c
  | .renameLanguage o n, d => update_language d o n

/-- Document states reachable through the store: loading normalizes, and every
successful mutation yields the next state. -/
inductive Reachable : XcStringsFile → Prop where
  | load (d : XcStringsFile) : Reachable (normalize_strings_file d)
  | step {d d' : XcStringsFile} (op : StoreOp) :
      Reachable d → applyOp op d = .ok d' → Reachable d'

/-- Sanitization outcome on one string unit (claim C1, amended): the state is
never whitespace-only, and a present value implies a present state. -/
def unit_ok (u : XcStringUnit) : Bool :=
  (match u.state with | some s => !strBlank s | none => true)
    && (u.value.isNone || u.state.isSome)

/-- Lift a unit predicate over an optional unit. -/
def optUnitOK (u : Option XcStringUnit) : Bool :=
  match u with | some x => unit_ok x | none => true

mutual
/-- Every string unit reachable inside a localization satisfies `unit_ok`. -/
def locUnitsOK : XcLocalization → Bool
  | .mk u subs vars => optUnitOK u && subsUnitsOK subs && varsUnitsOK vars

/-- Every string unit reachable inside a substitution satisfies `unit_ok`. -/
def subUnitsOK : XcSubstitution → Bool
  | .mk _ _ u vars => optUnitOK u && varsUnitsOK vars

/-- All substitutions' units are ok. -/
def subsUnitsOK : List (String × XcSubstitution) → Bool
  | [] => true
  | (_, s) :: rest => subUnitsOK s && subsUnitsOK rest

/-- All variations' units are ok. -/
def varsUnitsOK : VariationMap → Bool
  | [] => true
  | (_, cs) :: rest => casesUnitsOK cs && varsUnitsOK rest

/-- All cases' units are ok. -/
def casesUnitsOK : CaseMap → Bool
  | [] => true
  | (_, l) :: rest => locUnitsOK l && casesUnitsOK rest
end

/-- Every string unit anywhere in the document satisfies `unit_ok`. -/
def docUnitsOK (d : XcStringsFile) : Bool :=
  d.strings.all (fun p => p.2.localizations.all (fun q => locUnitsOK q.2))

mutual
/-- Variation-selector exclusivity (claim C3) for a localization, with the
context tracked exactly as the normalizer tracks it. -/
def exclLocOK (ctx : VariationContext) : XcLocalization → Bool
  | .mk _ subs vars => ruleOK ctx vars && exclSelsOK ctx vars && exclSubsOK subs

/-- Exclusivity for a substitution (validated at top-level context). -/
def exclSubOK : XcSubstitution → Bool
  | .mk _ _ _ vars => ruleOK .topLevel vars && exclSelsOK .topLevel vars

/-- Exclusivity below each selector, under the nested context. -/
def exclSelsOK (ctx : VariationContext) : VariationMap → Bool
  | [] => true
  | (sel, cases) :: rest =>
    exclCasesOK (nestedContext ctx sel) cases && exclSelsOK ctx rest

/-- Exclusivity for each case. -/
def exclCasesOK (ctx : VariationContext) : CaseMap → Bool
  | [] => true
  | (_, l) :: rest => exclLocOK ctx l && exclCasesOK ctx rest

/-- Exclusivity for each substitution of a localization. -/
def exclSubsOK : List (String × XcSubstitution) → Bool
  | [] => true
  | (_, s) :: rest => exclSubOK s && exclSubsOK rest
end

/-- Exclusivity at every nesting level of every localization and substitution
in the document. -/
def docExclOK (d : XcStringsFile) : Bool :=
  d.strings.all (fun p => p.2.localizations.all (fun q => exclLocOK .topLevel q.2))

/-- Serialization of an optional string as JSON (`null` when absent). -/
def optStrJson (s : Option String) : JsonValue :=
  match s with | some x => .str x | none => .null

/-- Serde serialization of `XcStringUnit` (fields `state`, `value`, no
skip attributes, declaration order). -/
def string_unit_to_json (u : XcStringUnit) : JsonValue :=
  .obj [("state", optStrJson u.state), ("value", optStrJson u.value)]

mutual
/-- Serde serialization of `XcLocalization`: `stringUnit`, `substitutions`,
`variations`, each skipped when absent/empty, member order preserved. -/
def localization_to_json : XcLocalization → JsonValue
  | .mk u subs vars =>
    .obj ((match u with
            | some x => [("stringUnit", string_unit_to_json x)]
            | none => [])
      ++ (if subs.isEmpty then [] else [("substitutions", .obj (subsJsonList subs))])
      ++ (if vars.isEmpty then [] else [("variations", .obj (varsJsonList vars))]))

/-- Serde serialization of `XcSubstitution`: `argNum`, `formatSpecifier`,
`stringUnit`, `variations`, skipped when absent/empty. -/
def substitution_to_json : XcSubstitution → JsonValue
  | .mk a f u vars =>
    .obj ((match a with | some n => [("argNum", .num n)] | none => [])
      ++ (match f with | some s => [("formatSpecifier", .str s)] | none => [])
      ++ (match u with | some x => [("stringUnit", string_unit_to_json x)] | none => [])
      ++ (if vars.isEmpty then [] else [("variations", .obj (varsJsonList vars))]))

/-- Members of a `substitutions` object. -/
def subsJsonList : List (String × XcSubstitution) → List (String × JsonValue)
  | [] => []
  | (k, s) :: rest => (k, substitution_to_json s) :: subsJsonList rest

/-- Members of a `variations` object. -/
def varsJsonList : VariationMap → List (String × JsonValue)
  | [] => []
  | (sel, cases) :: rest => (sel, .obj (casesJsonList cases)) :: varsJsonList rest

/-- Members of one selector's case object. -/
def casesJsonList : CaseMap → List (String × JsonValue)
  | [] => []
  | (k, l) :: rest => (k, localization_to_json l) :: casesJsonList rest
end

/-- Serde serialization of `XcStringEntry`: `comment`, `extractionState`,
`localizations` (skip when empty), `shouldTranslate`, declaration order. -/
def entry_to_json (e : XcStringEntry) : JsonValue :=
  .obj ((match e.comment with | some c => [("comment", .str c)] | none => [])
    ++ (match e.extraction_state with
        | some s => [("extractionState", .str s)]
        | none => [])
    ++ (if e.localizations.isEmpty then []
        else [("localizations",
          .obj (e.localizations.map (fun p => (p.1, localization_to_json p.2))))])
    ++ (match e.should_translate with
        | some b => [("shouldTranslate", .bool b)]
        | none => []))

/-- Serialization of `FormatVersion` (untagged union). -/
def formatVersionToJson : FormatVersion → JsonValue
  | .string s => .str s
  | .integer n => .num n

/-- Mirror of `XcStringsFile::to_json_value` (src/store.rs): update the
preserved raw object's changed members in place and re-emit it. -/
def XcStringsFile.to_json_value (d : XcStringsFile) : JsonValue :=
  let raw := insertKey d.raw "version" (.str d.version)
  let raw := match d.format_version with
    | some fv => insertKey raw "formatVersion" (formatVersionToJson fv)
    | none => removeKey raw "formatVersion"
  let raw := insertKey raw "sourceLanguage" (.str d.source_language)
  let raw := insertKey raw "strings"
    (.obj (d.strings.map (fun p => (p.1, entry_to_json p.2))))
  .obj raw

/-- Member names of a JSON object, in serialized order. -/
def memberNames : JsonValue → List String
  | .obj ms => ms.map (·.1)
  | _ => []

/-- Member lookup in a JSON object. -/
def objGet (v : JsonValue) (k : String) : Option JsonValue :=
  match v with
  | .obj ms => lookupKey? ms k
  | _ => none

/-- Lowercase hex digit, as produced by the `{:04x}` format. -/
def hexDigit (n : Nat) : Char :=
  if n < 10 then Char.ofNat (48 + n) else Char.ofNat (87 + n)

/-- Four-digit lowercase hex rendering of a code point. -/
def hex4 (n : Nat) : String :=
  ⟨[hexDigit (n / 4096 % 16), hexDigit (n / 256 % 16),
    hexDigit (n / 16 % 16), hexDigit (n % 16)]⟩

/-- Mirror of `escape_string` (src/apple_json_formatter.rs), per character. -/
def escape_char (c : Char) : String :=
  if c = '"' then "\\\""
  else if c = '\\' then "\\\\"
  else if c = '\n' then "\\n"
  else if c = '\r' then "\\r"
  else if c = '\t' then "\\t"
  else if c = '\x08' then "\\b"
  else if c = '\x0c' then "\\f"
  else if c.toNat < 32 || (127 ≤ c.toNat && c.toNat ≤ 159) then "\\u" ++ hex4 c.toNat
  else ⟨[c]⟩

/-- Mirror of `escape_string` (src/apple_json_formatter.rs). -/
def escape_string (s : String) : String :=
  String.join (s.data.map escape_char)

/-- Mirror of `write_indent` (src/apple_json_formatter.rs): two spaces per
level. -/
def write_indent (level : Nat) : String :=
  String.join (List.replicate level "  ")

mutual
/-- Mirror of `write_value` (src/apple_json_formatter.rs): Apple-style JSON
with `"name" : value` members, 2-space indent, collapsed empty containers. -/
def write_value : JsonValue → Nat → String
  | .null, _ => "null"
  | .bool b, _ => if b then "true" else "false"
  | .num n, _ => toString n
  | .str s, _ => "\"" ++ escape_string s ++ "\""
  | .arr xs, indent =>
    if xs.isEmpty then "[]"
    else "[\n" ++ write_items xs indent ++ write_indent indent ++ "]"
  | .obj ms, indent =>
    if ms.isEmpty then "\x7b\x7d"
    else "\x7b\n" ++ write_members ms indent ++ write_indent indent ++ "\x7d"

/-- Array items, comma-separated, one per line. -/
def write_items : List JsonValue → Nat → String
  | [], _ => ""
  | [x], indent => write_indent (indent + 1) ++ write_value x (indent + 1) ++ "\n"
  | x :: rest, indent =>
    write_indent (indent + 1) ++ write_value x (indent + 1) ++ ",\n"
      ++ write_items rest indent

/-- Object members in traversal order, `"name" : value`, comma-separated. -/
def write_members : List (String × JsonValue) → Nat → String
  | [], _ => ""
  | [(k, v)], indent =>
    write_indent (indent + 1) ++ "\"" ++ escape_string k ++ "\" : "
      ++ write_value v (indent + 1) ++ "\n"
  | (k, v) :: rest, indent =>
    write_indent (indent + 1) ++ "\"" ++ escape_string k ++ "\" : "
      ++ write_value v (indent + 1) ++ ",\n" ++ write_members rest indent
end

/-- Mirror of `to_apple_format` (src/apple_json_formatter.rs). -/
def to_apple_format (v : JsonValue) : String :=
  write_value v 0

/-- First position of `needle` in `hay` (character lists). -/
def subPos : List Char → List Char → Option Nat
  | [], needle => if needle.isEmpty then some 0 else none
  | c :: rest, needle =>
    if needle.isPrefixOf (c :: rest) then some 0
    else (subPos rest needle).map (· + 1)

/-- First position of `needle` in `hay` (strings). -/
def strPos (hay needle : String) : Option Nat :=
  subPos hay.data needle.data

/-- A localization whose unit carries an explicit state and whitespace-only
value (counterexample input for claim C1). -/
def locBlankValue : XcLocalization := .mk (some ⟨some "new", some " "⟩) [] []

/-- Document holding `locBlankValue` under key `"k"`, language `"en"`. -/
def docBlankValue : XcStringsFile :=
  { defaultFile with strings := [("k", ⟨none, none, [("en", locBlankValue)], none⟩)] }

/-- A plain translated localization (used by the C7 counterexample). -/
def locBonjour : XcLocalization :=
  .mk (some ⟨some "translated", some "Bonjour"⟩) [] []

/-- Document with a single `"fr"` localization, source language `"en"`. -/
def docFr : XcStringsFile :=
  { defaultFile with strings := [("greeting", ⟨none, none, [("fr", locBonjour)], none⟩)] }

/-- The empty update (every field absent). -/
def emptyUpdate : TranslationUpdate := .mk none none none none

/-- Explicit-clear-value update with absent state (claim C4). -/
def clearValueUpdate : TranslationUpdate := .mk none (some none) none none

/-- C9 scenario step 1: upsert key `"A"`. -/
def c9d1 : XcStringsFile :=
  (doc_upsert defaultFile "A" "en"
    (TranslationUpdate.from_value_state (some "Alpha") none)).2

/-- C9 scenario step 2: upsert key `"B"`. -/
def c9d2 : XcStringsFile :=
  (doc_upsert c9d1 "B" "en" (TranslationUpdate.from_value_state (some "Beta") none)).2

/-- C9 scenario step 3: upsert key `"C"`. -/
def c9d3 : XcStringsFile :=
  (doc_upsert c9d2 "C" "en" (TranslationUpdate.from_value_state (some "Gamma") none)).2

/-- C9 scenario step 4: update `"B"`'s value. -/
def c9d4 : XcStringsFile :=
  (doc_upsert c9d3 "B" "en" (TranslationUpdate.from_value_state (some "Beta2") none)).2

/-- C9 scenario step 5: upsert the new key `"D"`. -/
def c9d5 : XcStringsFile :=
  (doc_upsert c9d4 "D" "en" (TranslationUpdate.from_value_state (some "Delta") none)).2

/-- Variation map supplying both `"plural"` and `"device"` at top level, each
with one translated case (claim C3's drop scenario). -/
def bothSelectors : VariationMap :=
  [("plural", [("one", .mk (some ⟨some "translated", some "1 item"⟩) [] [])]),
   ("device", [("iphone", .mk (some ⟨some "translated", some "phone"⟩) [] [])])]

/-! ## Helper lemmas -/

theorem containsKey_of_filter {m : List (String × α)} {p : String × α → Bool}
    {k : String} (h : containsKey (m.filter p) k = true) : containsKey m k = true := by
  simp only [containsKey, List.any_eq_true] at h ⊢
  obtain ⟨x, hx, he⟩ := h
  exact ⟨x, List.mem_of_mem_filter hx, he⟩

theorem containsKey_filter_of_not {m : List (String × α)} {p : String × α → Bool}
    {k : String} (h : containsKey m k = false) :
    containsKey (m.filter p) k = false := by
  cases hc : containsKey (m.filter p) k
  · rfl
  · rw [containsKey_of_filter hc] at h
    simp at h

theorem containsKey_removeKey_self (m : List (String × α)) (k : String) :
    containsKey (removeKey m k) k = false := by
  induction m with
  | nil => rfl
  | cons hd tl ih =>
    rw [removeKey, List.filter_cons]
    split
    · rename_i hcond
      have h1 : (hd.1 == k) = false := by
        simpa [bne] using hcond
      rw [containsKey, List.any_cons, h1]
      simp only [containsKey, removeKey] at ih
      simp [ih]
    · simp only [containsKey, removeKey] at ih
      exact ih

theorem all_filter_self (l : List α) (p : α → Bool) : (l.filter p).all p = true := by
  simp only [List.all_eq_true]
  intro x hx
  exact (List.mem_filter.mp hx).2

theorem all_of_filter {l : List α} {p q : α → Bool} (h : l.all q = true) :
    (l.filter p).all q = true := by
  simp only [List.all_eq_true] at h ⊢
  intro x hx
  exact h x (List.mem_of_mem_filter hx)

theorem filter_eq_self_of_all {l : List α} {p : α → Bool} (h : l.all p = true) :
    l.filter p = l := by
  simp only [List.all_eq_true] at h
  exact List.filter_eq_self.mpr h

theorem map_eq_self_of {l : List α} {f : α → α} (h : ∀ x ∈ l, f x = x) :
    l.map f = l := by
  induction l with
  | nil => rfl
  | cons hd tl ih =>
    simp only [List.map_cons, h hd (by simp)]
    rw [ih (fun x hx => h x (by simp [hx]))]

theorem selsNF_filter (ctx : VariationContext) (p : String × CaseMap → Bool) :
    ∀ {l : VariationMap}, selsNF ctx l = true → selsNF ctx (l.filter p) = true := by
  intro l
  induction l with
  | nil => exact fun h => h
  | cons hd tl ih =>
    intro h
    obtain ⟨sel, cs⟩ := hd
    simp only [selsNF, Bool.and_eq_true] at h
    rw [List.filter_cons]
    split
    · simp only [selsNF, Bool.and_eq_true]
      exact ⟨h.1, ih h.2⟩
    · exact ih h.2

theorem ruleOK_applyVariationRule (ctx : VariationContext) (l : VariationMap) :
    ruleOK ctx (applyVariationRule ctx l) = true := by
  cases ctx with
  | topLevel =>
    simp only [applyVariationRule, ruleOK]
    split
    · rw [containsKey_removeKey_self]
      simp
    · rename_i h
      cases hb : (containsKey l "plural" && containsKey l "device") with
      | true => exact absurd hb h
      | false => simp [hb]
  | nestedUnderPlural =>
    simp only [applyVariationRule, ruleOK]
    split
    · simp [containsKey_removeKey_self]
    · rename_i h
      cases hb : containsKey l "device" with
      | true => exact absurd hb h
      | false => simp [hb]
  | nestedUnderDevice =>
    simp only [applyVariationRule, ruleOK]
    split
    · simp [containsKey_removeKey_self]
    · rename_i h
      cases hb : containsKey l "device" with
      | true => exact absurd hb h
      | false => simp [hb]

theorem ruleOK_filter {ctx : VariationContext} {l : VariationMap}
    (p : String × CaseMap → Bool) (h : ruleOK ctx l = true) :
    ruleOK ctx (l.filter p) = true := by
  cases ctx with
  | topLevel =>
    simp only [ruleOK, Bool.not_eq_true'] at h ⊢
    cases hp : containsKey (l.filter p) "plural" with
    | false => simp [hp]
    | true =>
      cases hd : containsKey (l.filter p) "device" with
      | false => simp [hd]
      | true =>
        rw [containsKey_of_filter hp, containsKey_of_filter hd] at h
        simp at h
  | nestedUnderPlural =>
    simp only [ruleOK, Bool.not_eq_true'] at h ⊢
    exact containsKey_filter_of_not h
  | nestedUnderDevice =>
    simp only [ruleOK, Bool.not_eq_true'] at h ⊢
    exact containsKey_filter_of_not h

theorem rule_of_ruleOK {ctx : VariationContext} {l : VariationMap}
    (h : ruleOK ctx l = true) : applyVariationRule ctx l = l := by
  cases ctx with
  | topLevel =>
    simp only [ruleOK, Bool.not_eq_true'] at h
    simp [applyVariationRule, h]
  | nestedUnderPlural =>
    simp only [ruleOK, Bool.not_eq_true'] at h
    simp [applyVariationRule, h]
  | nestedUnderDevice =>
    simp only [ruleOK, Bool.not_eq_true'] at h
    simp [applyVariationRule, h]

theorem translated_not_blank : strBlank "translated" = false := rfl

theorem sanitize_string_unit_idem (u : XcStringUnit) :
    sanitize_string_unit (sanitize_string_unit u) = sanitize_string_unit u := by
  obtain ⟨s, v⟩ := u
  cases s with
  | none =>
    cases v with
    | none => rfl
    | some vv =>
      by_cases hb : strBlank vv <;>
        simp [sanitize_string_unit, is_blank, hb, translated_not_blank]
  | some sv =>
    cases v with
    | none =>
      by_cases hb : strBlank sv <;>
        simp [sanitize_string_unit, is_blank, hb]
    | some vv =>
      by_cases hb : strBlank sv <;>
        simp [sanitize_string_unit, is_blank, hb, translated_not_blank]

theorem unitNF_normUnitOpt (u : Option XcStringUnit) :
    unitNF (normUnitOpt u) = true := by
  cases u with
  | none => rfl
  | some x =>
    simp only [normUnitOpt, Option.map_some']
    split
    · rfl
    · rename_i h
      simp only [Option.getD_some, Bool.not_eq_true', Bool.not_eq_false] at h
      simp [unitNF, sanitize_string_unit_idem, h]

theorem normUnitOpt_of_NF {u : Option XcStringUnit} (h : unitNF u = true) :
    normUnitOpt u = u := by
  cases u with
  | none => rfl
  | some x =>
    simp only [unitNF, Bool.and_eq_true, beq_iff_eq] at h
    simp [normUnitOpt, h.1, h.2]

theorem selsNF_rule (ctx rctx : VariationContext) {l : VariationMap}
    (h : selsNF ctx l = true) : selsNF ctx (applyVariationRule rctx l) = true := by
  cases rctx with
  | topLevel =>
    simp only [applyVariationRule]
    split
    · exact selsNF_filter ctx _ h
    · exact h
  | nestedUnderPlural =>
    simp only [applyVariationRule]
    split
    · exact selsNF_filter ctx _ h
    · exact h
  | nestedUnderDevice =>
    simp only [applyVariationRule]
    split
    · exact selsNF_filter ctx _ h
    · exact h

mutual
theorem norm_loc_NF (ctx : VariationContext) (loc : XcLocalization) :
    locNF ctx (normalize_localization_inner ctx loc) = true := by
  cases loc with
  | mk u subs vars =>
    simp only [normalize_localization_inner, locNF, Bool.and_eq_true]
    refine ⟨⟨⟨⟨?_, ?_⟩, ?_⟩, ?_⟩, ?_⟩
    · exact unitNF_normUnitOpt u
    · exact norm_subsList_NF subs
    · exact ruleOK_filter _ (ruleOK_applyVariationRule ctx (normalizeSelectors ctx vars))
    · exact selsNF_filter ctx _ (selsNF_rule ctx ctx (norm_sels_NF ctx vars))
    · exact all_filter_self _ _

theorem norm_sub_NF (s : XcSubstitution) :
    subNF (normalize_substitution s) = true := by
  cases s with
  | mk a f u vars =>
    simp only [normalize_substitution, subNF, Bool.and_eq_true]
    refine ⟨⟨⟨?_, ?_⟩, ?_⟩, ?_⟩
    · exact unitNF_normUnitOpt u
    · exact ruleOK_filter _
        (ruleOK_applyVariationRule .topLevel (normalizeSelectors .topLevel vars))
    · exact selsNF_filter .topLevel _
        (selsNF_rule .topLevel .topLevel (norm_sels_NF .topLevel vars))
    · exact all_filter_self _ _

theorem norm_sels_NF (ctx : VariationContext) (vars : VariationMap) :
    selsNF ctx (normalizeSelectors ctx vars) = true := by
  cases vars with
  | nil => rfl
  | cons hd tl =>
    obtain ⟨sel, cs⟩ := hd
    simp only [normalizeSelectors, selsNF, Bool.and_eq_true]
    exact ⟨norm_cases_NF (nestedContext ctx sel) cs, norm_sels_NF ctx tl⟩

theorem norm_cases_NF (ctx : VariationContext) (cs : CaseMap) :
    casesNF ctx (normalizeCases ctx cs) = true := by
  cases cs with
  | nil => rfl
  | cons hd tl =>
    obtain ⟨k, l⟩ := hd
    simp only [normalizeCases]
    split
    · exact norm_cases_NF ctx tl
    · rename_i hne
      simp only [casesNF, Bool.and_eq_true]
      refine ⟨⟨norm_loc_NF ctx l, ?_⟩, norm_cases_NF ctx tl⟩
      simp [hne]

theorem norm_subsList_NF (subs : List (String × XcSubstitution)) :
    subsNF (normalizeSubsList subs) = true := by
  cases subs with
  | nil => rfl
  | cons hd tl =>
    obtain ⟨k, s⟩ := hd
    simp only [normalizeSubsList]
    split
    · exact norm_subsList_NF tl
    · rename_i hne
      simp only [subsNF, Bool.and_eq_true]
      refine ⟨⟨norm_sub_NF s, ?_⟩, norm_subsList_NF tl⟩
      simp [hne]
end

mutual
theorem locNF_fix (ctx : VariationContext) (loc : XcLocalization)
    (h : locNF ctx loc = true) : normalize_localization_inner ctx loc = loc := by
  cases loc with
  | mk u subs vars =>
    simp only [locNF, Bool.and_eq_true] at h
    obtain ⟨⟨⟨⟨h1, h2⟩, h3⟩, h4⟩, h5⟩ := h
    simp only [normalize_localization_inner]
    rw [normUnitOpt_of_NF h1, subsNF_fix subs h2, selsNF_fix ctx vars h4,
      rule_of_ruleOK h3]
    simp only [dropEmptySelectors]
    rw [filter_eq_self_of_all h5]

theorem subNF_fix (s : XcSubstitution) (h : subNF s = true) :
    normalize_substitution s = s := by
  cases s with
  | mk a f u vars =>
    simp only [subNF, Bool.and_eq_true] at h
    obtain ⟨⟨⟨h1, h3⟩, h4⟩, h5⟩ := h
    simp only [normalize_substitution]
    rw [normUnitOpt_of_NF h1, selsNF_fix .topLevel vars h4, rule_of_ruleOK h3]
    simp only [dropEmptySelectors]
    rw [filter_eq_self_of_all h5]

theorem selsNF_fix (ctx : VariationContext) (vars : VariationMap)
    (h : selsNF ctx vars = true) : normalizeSelectors ctx vars = vars := by
  cases vars with
  | nil => rfl
  | cons hd tl =>
    obtain ⟨sel, cs⟩ := hd
    simp only [selsNF, Bool.and_eq_true] at h
    simp only [normalizeSelectors]
    rw [casesNF_fix (nestedContext ctx sel) cs h.1, selsNF_fix ctx tl h.2]

theorem casesNF_fix (ctx : VariationContext) (cs : CaseMap)
    (h : casesNF ctx cs = true) : normalizeCases ctx cs = cs := by
  cases cs with
  | nil => rfl
  | cons hd tl =>
    obtain ⟨k, l⟩ := hd
    simp only [casesNF, Bool.and_eq_true] at h
    obtain ⟨⟨h1, h2⟩, h3⟩ := h
    simp only [normalizeCases]
    rw [locNF_fix ctx l h1]
    simp only [Bool.not_eq_true'] at h2
    simp [h2, casesNF_fix ctx tl h3]

theorem subsNF_fix (subs : List (String × XcSubstitution))
    (h : subsNF subs = true) : normalizeSubsList subs = subs := by
  cases subs with
  | nil => rfl
  | cons hd tl =>
    obtain ⟨k, s⟩ := hd
    simp only [subsNF, Bool.and_eq_true] at h
    obtain ⟨⟨h1, h2⟩, h3⟩ := h
    simp only [normalizeSubsList]
    rw [subNF_fix s h1]
    simp only [Bool.not_eq_true'] at h2
    simp [h2, subsNF_fix tl h3]
end

theorem normalize_localization_inner_idem (ctx : VariationContext)
    (loc : XcLocalization) :
    normalize_localization_inner ctx (normalize_localization_inner ctx loc) =
      normalize_localization_inner ctx loc :=
  locNF_fix ctx _ (norm_loc_NF ctx loc)

theorem normLocsList_eq_cases (l : List (String × XcLocalization)) :
    normLocsList l = normalizeCases .topLevel l := by
  induction l with
  | nil => rfl
  | cons hd tl ih =>
    obtain ⟨k, loc⟩ := hd
    simp only [normLocsList, normalizeCases, normalize_localization]
    rw [ih]

theorem normLocsList_idem (l : List (String × XcLocalization)) :
    normLocsList (normLocsList l) = normLocsList l := by
  rw [normLocsList_eq_cases l, normLocsList_eq_cases (normalizeCases .topLevel l)]
  exact casesNF_fix .topLevel _ (norm_cases_NF .topLevel l)

theorem normalizeEntry_idem (e : XcStringEntry) :
    normalizeEntry (normalizeEntry e) = normalizeEntry e := by
  simp [normalizeEntry, normLocsList_idem]

theorem normalizeStringsList_idem (s : List (String × XcStringEntry)) :
    normalizeStringsList (normalizeStringsList s) = normalizeStringsList s := by
  have hmap : (normalizeStringsList s).map (fun p => (p.1, normalizeEntry p.2))
      = normalizeStringsList s := by
    apply map_eq_self_of
    intro x hx
    have hx2 : x ∈ s.map (fun p => (p.1, normalizeEntry p.2)) :=
      List.mem_of_mem_filter hx
    obtain ⟨y, _, rfl⟩ := List.mem_map.mp hx2
    simp [normalizeEntry_idem]
  show ((normalizeStringsList s).map (fun p => (p.1, normalizeEntry p.2))).filter
      (fun p => keepEntry p.2) = normalizeStringsList s
  rw [hmap]
  exact filter_eq_self_of_all (all_filter_self _ _)

theorem blank_default_stable (v dflt : String) (hd : strBlank dflt = false) :
    (if strBlank (if strBlank v then dflt else v) then dflt
      else if strBlank v then dflt else v) = if strBlank v then dflt else v := by
  by_cases h : strBlank v <;> simp [h, hd]

theorem normalize_strings_file_idem (d : XcStringsFile) :
    normalize_strings_file (normalize_strings_file d) = normalize_strings_file d := by
  simp only [normalize_strings_file]
  rw [blank_default_stable d.version "1.0" rfl,
    blank_default_stable d.source_language "en" rfl,
    normalizeStringsList_idem]

/-- C2: the Normalizer is idempotent — running `normalize_strings_file` on its
own output (covering string-unit sanitization, bottom-up pruning of empty
Localizations and Substitutions, variation-selector validation and Entry
removal) yields that output unchanged. -/
theorem C2_normalizer_idempotent (d : XcStringsFile) :
    normalize_strings_file (normalize_strings_file d) = normalize_strings_file d :=
  normalize_strings_file_idem d

theorem lookupKey?_eq_none_iff {m : List (String × α)} {k : String} :
    lookupKey? m k = none ↔ containsKey m k = false := by
  induction m with
  | nil => simp [lookupKey?, containsKey]
  | cons hd tl ih =>
    by_cases h : hd.1 == k
    · simp [lookupKey?, containsKey, List.find?_cons, h]
    · simp only [lookupKey?, containsKey, List.find?_cons, h, List.any_cons] at ih ⊢
      simp only [Bool.false_or]
      exact ih

theorem lookupKey?_append_of_not {a b : List (String × α)} {k : String}
    (h : containsKey a k = false) : lookupKey? (a ++ b) k = lookupKey? b k := by
  induction a with
  | nil => rfl
  | cons hd tl ih =>
    simp only [containsKey, List.any_cons, Bool.or_eq_false_iff] at h
    simp only [lookupKey?, List.cons_append, List.find?_cons, h.1]
    exact ih (by simpa [containsKey] using h.2)

theorem containsKey_append (a b : List (String × α)) (k : String) :
    containsKey (a ++ b) k = (containsKey a k || containsKey b k) := by
  simp [containsKey, List.any_append]

theorem lookup_map_keyed (l : List (String × α)) (g : α → β) (k : String) :
    lookupKey? (l.map (fun p => (p.1, g p.2))) k = (lookupKey? l k).map g := by
  induction l with
  | nil => rfl
  | cons hd tl ih =>
    by_cases h : hd.1 == k
    · simp [lookupKey?, List.find?_cons, h]
    · simp only [lookupKey?] at ih
      simp [lookupKey?, List.find?_cons, h, Option.map_map, Function.comp] at ih ⊢
      exact ih

theorem containsKey_map_keyed (l : List (String × α)) (g : α → β) (k : String) :
    containsKey (l.map (fun p => (p.1, g p.2))) k = containsKey l k := by
  induction l with
  | nil => rfl
  | cons hd tl ih =>
    obtain ⟨k1, v1⟩ := hd
    simp only [List.map_cons, containsKey, List.any_cons]
    simp only [containsKey] at ih
    rw [ih]

theorem entryModify_append (k : String) (dflt : α) (f : α → α)
    {m : List (String × α)} (h : containsKey m k = false) :
    entryModify k dflt f m = m ++ [(k, f dflt)] := by
  induction m with
  | nil => rfl
  | cons hd tl ih =>
    simp only [containsKey, List.any_cons, Bool.or_eq_false_iff] at h
    simp only [entryModify, h.1, List.cons_append]
    rw [ih (by simpa [containsKey] using h.2)]
    simp [h.1]

theorem lookup_entryModify_self (k : String) (dflt : α) (f : α → α)
    (m : List (String × α)) :
    lookupKey? (entryModify k dflt f m) k = some (f ((lookupKey? m k).getD dflt)) := by
  induction m with
  | nil => simp [entryModify, lookupKey?, List.find?_cons]
  | cons hd tl ih =>
    obtain ⟨k1, v1⟩ := hd
    by_cases h : k1 == k
    · simp [entryModify, lookupKey?, List.find?_cons, h]
    · simp only [lookupKey?] at ih
      simp [entryModify, lookupKey?, List.find?_cons, h] at ih ⊢
      exact ih

theorem insertKey_not_contains {m : List (String × α)} {k : String} (v : α)
    (h : containsKey m k = false) : insertKey m k v = m ++ [(k, v)] := by
  simp [insertKey, h]

theorem normLocsList_append (a b : List (String × XcLocalization)) :
    normLocsList (a ++ b) = normLocsList a ++ normLocsList b := by
  induction a with
  | nil => rfl
  | cons hd tl ih =>
    obtain ⟨k, l⟩ := hd
    simp only [List.cons_append, normLocsList]
    split
    · exact ih
    · rw [show tl.append b = tl ++ b from rfl, ih]
      rfl

theorem containsKey_normLocsList {l : List (String × XcLocalization)} {k : String}
    (h : containsKey l k = false) : containsKey (normLocsList l) k = false := by
  induction l with
  | nil => rfl
  | cons hd tl ih =>
    obtain ⟨k', loc⟩ := hd
    simp only [containsKey, List.any_cons, Bool.or_eq_false_iff] at h
    have ih2 := ih (by simpa [containsKey] using h.2)
    simp only [normLocsList]
    split
    · exact ih2
    · simp only [containsKey, List.any_cons, Bool.or_eq_false_iff]
      exact ⟨h.1, by simpa [containsKey] using ih2⟩

theorem unit_ok_of_unitNF {u : Option XcStringUnit} (h : unitNF u = true) :
    optUnitOK u = true := by
  cases u with
  | none => rfl
  | some x =>
    obtain ⟨s, v⟩ := x
    simp only [unitNF, Bool.and_eq_true, beq_iff_eq] at h
    obtain ⟨hfix, hcon⟩ := h
    cases s with
    | none =>
      cases v with
      | none => simp [string_unit_has_content] at hcon
      | some vv =>
        by_cases hb : strBlank vv
        · exfalso
          simp [sanitize_string_unit, is_blank, hb] at hfix
        · exfalso
          simp [sanitize_string_unit, is_blank, hb] at hfix
    | some sv =>
      by_cases hb : strBlank sv
      · exfalso
        cases v with
        | none => simp [sanitize_string_unit, is_blank, hb] at hfix
        | some vv =>
          simp [sanitize_string_unit, is_blank, hb] at hfix
          rw [← hfix] at hb
          simp [translated_not_blank] at hb
      · simp [optUnitOK, unit_ok, hb]

theorem casesNF_mem {ctx : VariationContext} {cs : CaseMap}
    (h : casesNF ctx cs = true) :
    ∀ p ∈ cs, locNF ctx p.2 = true ∧ localization_is_empty p.2 = false := by
  induction cs with
  | nil =>
    intro p hp
    cases hp
  | cons hd tl ih =>
    obtain ⟨k, l⟩ := hd
    simp only [casesNF, Bool.and_eq_true] at h
    obtain ⟨⟨h1, h2⟩, h3⟩ := h
    intro p hp
    rcases List.mem_cons.mp hp with rfl | hp2
    · exact ⟨h1, by simpa using h2⟩
    · exact ih h3 p hp2

mutual
theorem locNF_unitsOK (ctx : VariationContext) (loc : XcLocalization)
    (h : locNF ctx loc = true) : locUnitsOK loc = true := by
  cases loc with
  | mk u subs vars =>
    simp only [locNF, Bool.and_eq_true] at h
    obtain ⟨⟨⟨⟨h1, h2⟩, _⟩, h4⟩, _⟩ := h
    simp only [locUnitsOK, Bool.and_eq_true]
    exact ⟨⟨unit_ok_of_unitNF h1, subsNF_unitsOK subs h2⟩, selsNF_unitsOK ctx vars h4⟩

theorem subNF_unitsOK (s : XcSubstitution) (h : subNF s = true) :
    subUnitsOK s = true := by
  cases s with
  | mk a f u vars =>
    simp only [subNF, Bool.and_eq_true] at h
    obtain ⟨⟨⟨h1, _⟩, h4⟩, _⟩ := h
    simp only [subUnitsOK, Bool.and_eq_true]
    exact ⟨unit_ok_of_unitNF h1, selsNF_unitsOK .topLevel vars h4⟩

theorem selsNF_unitsOK (ctx : VariationContext) (vars : VariationMap)
    (h : selsNF ctx vars = true) : varsUnitsOK vars = true := by
  cases vars with
  | nil => rfl
  | cons hd tl =>
    obtain ⟨sel, cs⟩ := hd
    simp only [selsNF, Bool.and_eq_true] at h
    simp only [varsUnitsOK, Bool.and_eq_true]
    exact ⟨casesNF_unitsOK (nestedContext ctx sel) cs h.1, selsNF_unitsOK ctx tl h.2⟩

theorem casesNF_unitsOK (ctx : VariationContext) (cs : CaseMap)
    (h : casesNF ctx cs = true) : casesUnitsOK cs = true := by
  cases cs with
  | nil => rfl
  | cons hd tl =>
    obtain ⟨k, l⟩ := hd
    simp only [casesNF, Bool.and_eq_true] at h
    obtain ⟨⟨h1, _⟩, h3⟩ := h
    simp only [casesUnitsOK, Bool.and_eq_true]
    exact ⟨locNF_unitsOK ctx l h1, casesNF_unitsOK ctx tl h3⟩

theorem subsNF_unitsOK (subs : List (String × XcSubstitution))
    (h : subsNF subs = true) : subsUnitsOK subs = true := by
  cases subs with
  | nil => rfl
  | cons hd tl =>
    obtain ⟨k, s⟩ := hd
    simp only [subsNF, Bool.and_eq_true] at h
    obtain ⟨⟨h1, _⟩, h3⟩ := h
    simp only [subsUnitsOK, Bool.and_eq_true]
    exact ⟨subNF_unitsOK s h1, subsNF_unitsOK tl h3⟩
end

mutual
theorem locNF_exclOK (ctx : VariationContext) (loc : XcLocalization)
    (h : locNF ctx loc = true) : exclLocOK ctx loc = true := by
  cases loc with
  | mk u subs vars =>
    simp only [locNF, Bool.and_eq_true] at h
    obtain ⟨⟨⟨⟨_, h2⟩, h3⟩, h4⟩, _⟩ := h
    simp only [exclLocOK, Bool.and_eq_true]
    exact ⟨⟨h3, selsNF_exclOK ctx vars h4⟩, subsNF_exclOK subs h2⟩

theorem subNF_exclOK (s : XcSubstitution) (h : subNF s = true) :
    exclSubOK s = true := by
  cases s with
  | mk a f u vars =>
    simp only [subNF, Bool.and_eq_true] at h
    obtain ⟨⟨⟨_, h3⟩, h4⟩, _⟩ := h
    simp only [exclSubOK, Bool.and_eq_true]
    exact ⟨h3, selsNF_exclOK .topLevel vars h4⟩

theorem selsNF_exclOK (ctx : VariationContext) (vars : VariationMap)
    (h : selsNF ctx vars = true) : exclSelsOK ctx vars = true := by
  cases vars with
  | nil => rfl
  | cons hd tl =>
    obtain ⟨sel, cs⟩ := hd
    simp only [selsNF, Bool.and_eq_true] at h
    simp only [exclSelsOK, Bool.and_eq_true]
    exact ⟨casesNF_exclOK (nestedContext ctx sel) cs h.1, selsNF_exclOK ctx tl h.2⟩

theorem casesNF_exclOK (ctx : VariationContext) (cs : CaseMap)
    (h : casesNF ctx cs = true) : exclCasesOK ctx cs = true := by
  cases cs with
  | nil => rfl
  | cons hd tl =>
    obtain ⟨k, l⟩ := hd
    simp only [casesNF, Bool.and_eq_true] at h
    obtain ⟨⟨h1, _⟩, h3⟩ := h
    simp only [exclCasesOK, Bool.and_eq_true]
    exact ⟨locNF_exclOK ctx l h1, casesNF_exclOK ctx tl h3⟩

theorem subsNF_exclOK (subs : List (String × XcSubstitution))
    (h : subsNF subs = true) : exclSubsOK subs = true := by
  cases subs with
  | nil => rfl
  | cons hd tl =>
    obtain ⟨k, s⟩ := hd
    simp only [subsNF, Bool.and_eq_true] at h
    obtain ⟨⟨h1, _⟩, h3⟩ := h
    simp only [exclSubsOK, Bool.and_eq_true]
    exact ⟨subNF_exclOK s h1, subsNF_exclOK tl h3⟩
end

theorem docUnitsOK_normalize (d : XcStringsFile) :
    docUnitsOK (normalize_strings_file d) = true := by
  simp only [docUnitsOK, normalize_strings_file, List.all_eq_true]
  intro p hp
  obtain ⟨y, _, rfl⟩ := List.mem_map.mp (List.mem_of_mem_filter hp)
  simp only [normalizeEntry, List.all_eq_true]
  intro q hq
  rw [normLocsList_eq_cases] at hq
  exact locNF_unitsOK .topLevel q.2
    (casesNF_mem (norm_cases_NF .topLevel y.2.localizations) q hq).1

theorem docExclOK_normalize (d : XcStringsFile) :
    docExclOK (normalize_strings_file d) = true := by
  simp only [docExclOK, normalize_strings_file, List.all_eq_true]
  intro p hp
  obtain ⟨y, _, rfl⟩ := List.mem_map.mp (List.mem_of_mem_filter hp)
  simp only [normalizeEntry, List.all_eq_true]
  intro q hq
  rw [normLocsList_eq_cases] at hq
  exact locNF_exclOK .topLevel q.2
    (casesNF_mem (norm_cases_NF .topLevel y.2.localizations) q hq).1

theorem containsKey_normalizeSelectors (ctx : VariationContext)
    (vars : VariationMap) (k : String) :
    containsKey (normalizeSelectors ctx vars) k = containsKey vars k := by
  induction vars with
  | nil => rfl
  | cons hd tl ih =>
    obtain ⟨sel, cs⟩ := hd
    simp only [normalizeSelectors, containsKey, List.any_cons]
    simp only [containsKey] at ih
    rw [ih]

/-- C1 counterexample: a whitespace-only value accompanied by an explicit
non-blank state survives normalization — it is not treated as absent, contrary
to the claim's "regardless of the unit's other field". -/
theorem C1_counterexample :
    ((lookupKey? (normalize_strings_file docBlankValue).strings "k").bind
        (fun e => lookupKey? e.localizations "en")).bind XcLocalization.string_unit
      = some ⟨some "new", some " "⟩ ∧
    strBlank " " = true := ⟨rfl, rfl⟩

/-- C1 (amended): sanitization drops a whitespace-only value only when the
state field is absent; a whitespace-only state is dropped (and then the state
defaults to `"translated"` exactly when a value is present); a present value
with an absent state gets state `"translated"`; consequently every StringUnit
anywhere in a normalized document has a non-blank state whenever it has any
state, and has a state whenever it has a value. -/
theorem C1_sanitization_amended :
    (∀ u : XcStringUnit, u.state = none → is_blank u.value = true →
      sanitize_string_unit u = ⟨none, none⟩) ∧
    (∀ u : XcStringUnit, u.state = none → is_blank u.value = false →
      sanitize_string_unit u = ⟨some "translated", u.value⟩) ∧
    (∀ (u : XcStringUnit) (s : String), u.state = some s → strBlank s = true →
      sanitize_string_unit u =
        ⟨if u.value.isSome then some "translated" else none, u.value⟩) ∧
    (∀ (u : XcStringUnit) (s : String), u.state = some s → strBlank s = false →
      sanitize_string_unit u = ⟨u.state, u.value⟩) ∧
    (∀ d : XcStringsFile, docUnitsOK (normalize_strings_file d) = true) := by
  refine ⟨?_, ?_, ?_, ?_, docUnitsOK_normalize⟩
  · rintro ⟨s, v⟩ hs hv
    cases hs
    simp only [is_blank] at hv
    simp [sanitize_string_unit, is_blank, hv]
  · rintro ⟨s, v⟩ hs hv
    cases hs
    cases v with
    | none => simp [is_blank] at hv
    | some vv =>
      simp only [is_blank, Option.map_some', Option.getD_some] at hv
      simp [sanitize_string_unit, is_blank, hv]
  · rintro ⟨s, v⟩ sv hs hb
    cases hs
    cases v with
    | none => simp [sanitize_string_unit, is_blank, hb]
    | some vv => simp [sanitize_string_unit, is_blank, hb]
  · rintro ⟨s, v⟩ sv hs hb
    cases hs
    simp [sanitize_string_unit, is_blank, hb]

/-- C1 witness: the amended sanitization facts at concrete inputs. -/
theorem C1_witness :
    sanitize_string_unit ⟨none, some " "⟩ = ⟨none, none⟩ ∧
    sanitize_string_unit ⟨none, some "Hello"⟩ = ⟨some "translated", some "Hello"⟩ ∧
    sanitize_string_unit ⟨some " ", some "Hello"⟩
      = ⟨some "translated", some "Hello"⟩ ∧
    sanitize_string_unit ⟨some "new", some " "⟩ = ⟨some "new", some " "⟩ ∧
    docUnitsOK (normalize_strings_file docBlankValue) = true := by
  refine ⟨C1_sanitization_amended.1 ⟨none, some " "⟩ rfl rfl, ?_, ?_, ?_,
    C1_sanitization_amended.2.2.2.2 docBlankValue⟩
  · have := C1_sanitization_amended.2.1 ⟨none, some "Hello"⟩ rfl rfl
    simpa using this
  · have := C1_sanitization_amended.2.2.1 ⟨some " ", some "Hello"⟩ " " rfl rfl
    simpa using this
  · have := C1_sanitization_amended.2.2.2.1 ⟨some "new", some " "⟩ "new" rfl rfl
    simpa using this

/-- C3: after normalization, variation-selector exclusivity holds at every
nesting level of every Localization and Substitution (no `"plural"`+`"device"`
at top-level context, no `"device"` nested under `"plural"` or `"device"`);
when both `"plural"` and `"device"` are supplied at one level, `"device"` is
dropped, and concretely `"plural"` is retained; dropping is silent — the
normalizer is total and never fails. -/
theorem C3_variation_exclusivity :
    (∀ d : XcStringsFile, docExclOK (normalize_strings_file d) = true) ∧
    (∀ vars : VariationMap, containsKey vars "plural" = true →
      containsKey vars "device" = true →
      containsKey (validate_and_normalize_variations .topLevel vars) "device"
        = false) ∧
    validate_and_normalize_variations .topLevel bothSelectors =
      [("plural", [("one", .mk (some ⟨some "translated", some "1 item"⟩) [] [])])] := by
  refine ⟨docExclOK_normalize, ?_, rfl⟩
  intro vars hp hd
  simp only [validate_and_normalize_variations, applyVariationRule,
    containsKey_normalizeSelectors, hp, hd, Bool.and_self, if_true,
    dropEmptySelectors]
  exact containsKey_filter_of_not (containsKey_removeKey_self _ _)

/-- C3 witness: both selectors supplied at top level; after validation the
`"device"` selector is gone and `"plural"` is retained. -/
theorem C3_witness :
    containsKey bothSelectors "plural" = true ∧
    containsKey bothSelectors "device" = true ∧
    containsKey (validate_and_normalize_variations .topLevel bothSelectors)
      "device" = false :=
  ⟨rfl, rfl, C3_variation_exclusivity.2.1 bothSelectors rfl rfl⟩

/-- C4: tri-state clearing. Merging an explicit-clear value with an absent
state into a StringUnit `{value: X, state: "translated"}` removes the value
while leaving the state untouched; the sanitized unit still has content (its
state), so it is kept and the merged Localization is not empty; in general a
Localization that normalizes to empty (nothing keeps it non-empty) is pruned
by normalization. -/
theorem C4_tristate_clearing (x : String) (subs : List (String × XcSubstitution))
    (vars : VariationMap) :
    apply_update (.mk (some ⟨some "translated", some x⟩) subs vars) clearValueUpdate
      = .mk (some ⟨some "translated", none⟩) subs vars ∧
    string_unit_has_content ⟨some "translated", none⟩ = true ∧
    localization_is_empty
      (apply_update (.mk (some ⟨some "translated", some x⟩) subs vars)
        clearValueUpdate) = false ∧
    (∀ (k : String) (l : XcLocalization) (rest : List (String × XcLocalization)),
      localization_is_empty (normalize_localization l) = true →
      normLocsList ((k, l) :: rest) = normLocsList rest) := by
  refine ⟨rfl, rfl, rfl, ?_⟩
  intro k l rest h
  simp [normLocsList, h]

/-- C4 witness: the clearing behavior at a concrete input, and the pruning of
a Localization left empty. -/
theorem C4_witness :
    apply_update (.mk (some ⟨some "translated", some "X"⟩) [] []) clearValueUpdate
      = .mk (some ⟨some "translated", none⟩) [] [] ∧
    normLocsList [("en", defaultLoc)] = [] := by
  refine ⟨(C4_tristate_clearing "X" [] []).1, ?_⟩
  have := (C4_tristate_clearing "X" [] []).2.2.2 "en" defaultLoc [] rfl
  simpa using this

theorem keepEntry_invariant {e : XcStringEntry} (h : keepEntry e = true) :
    entryInvariant e = true := by
  unfold keepEntry at h
  unfold entryInvariant
  by_cases hl : e.localizations.isEmpty
  · simp only [hl, if_true] at h
    simp [hl, h]
  · simp [hl]

theorem docEntryInvariant_normalize (d : XcStringsFile) :
    docEntryInvariant (normalize_strings_file d) = true := by
  simp only [docEntryInvariant, normalize_strings_file, List.all_eq_true]
  intro p hp
  exact keepEntry_invariant (List.mem_filter.mp hp).2

theorem applyOp_ok_shape (op : StoreOp) (d d' : XcStringsFile)
    (h : applyOp op d = .ok d') :
    d' = d ∨ ∃ d0, d' = normalize_strings_file d0 := by
  cases op with
  | upsertTranslation k l u =>
    simp only [applyOp, doc_upsert, Except.ok.injEq] at h
    exact Or.inr ⟨_, h.symm⟩
  | deleteTranslation k l =>
    simp only [applyOp, delete_translation] at h
    split at h
    · split at h
      · simp only [Except.ok.injEq] at h
        exact Or.inr ⟨_, h.symm⟩
      · simp at h
    · simp at h
  | deleteKey k =>
    simp only [applyOp, delete_key] at h
    split at h
    · simp only [Except.ok.injEq] at h
      exact Or.inr ⟨_, h.symm⟩
    · simp at h
  | renameKey o n =>
    simp only [applyOp, rename_key] at h
    split at h
    · simp only [Except.ok.injEq] at h
      exact Or.inl h.symm
    · split at h
      · simp at h
      · split at h
        · simp at h
        · simp only [Except.ok.injEq] at h
          exact Or.inr ⟨_, h.symm⟩
  | setComment k c =>
    simp only [applyOp, set_comment, Except.ok.injEq] at h
    exact Or.inr ⟨_, h.symm⟩
  | setExtractionState k s =>
    simp only [applyOp, set_extraction_state, Except.ok.injEq] at h
    exact Or.inr ⟨_, h.symm⟩
  | setShouldTranslate k b =>
    simp only [applyOp, set_should_translate, Except.ok.injEq] at h
    exact Or.inr ⟨_, h.symm⟩
  | addLanguage c =>
    simp only [applyOp, add_language] at h
    split at h
    · simp at h
    · split at h
      · simp at h
      · simp only [Except.ok.injEq] at h
        exact Or.inr ⟨_, h.symm⟩
  | removeLanguage c =>
    simp only [applyOp, remove_language] at h
    split at h
    · simp at h
    · split at h
      · simp at h
      · split at h
        · simp at h
        · simp only [Except.ok.injEq] at h
          exact Or.inr ⟨_, h.symm⟩
  | renameLanguage o n =>
    simp only [applyOp, update_language] at h
    split at h
    · simp at h
    · split at h
      · simp at h
      · split at h
        · simp only [Except.ok.injEq] at h
          exact Or.inl h.symm
        · split at h
          · simp at h
          · split at h
            · simp at h
            · split at h
              · simp at h
              · simp only [Except.ok.injEq] at h
                exact Or.inr ⟨_, h.symm⟩

/-- C5: every document state reachable through the store (after load, and
after every mutating operation that returns successfully) satisfies the
Entry-pruning invariant: an Entry with zero Localizations carries a comment,
extractionState or shouldTranslate, and an Entry with none of those never
appears in the strings mapping. -/
theorem C5_entry_pruning_invariant (d : XcStringsFile) (h : Reachable d) :
    docEntryInvariant d = true := by
  induction h with
  | load d0 => exact docEntryInvariant_normalize d0
  | step op hr heq ih =>
    rcases applyOp_ok_shape _ _ _ heq with rfl | ⟨d0, rfl⟩
    · exact ih
    · exact docEntryInvariant_normalize d0

/-- C5 witness: the invariant at the freshly loaded default catalog. -/
theorem C5_witness : docEntryInvariant (normalize_strings_file defaultFile) = true :=
  C5_entry_pruning_invariant _ (Reachable.load defaultFile)

theorem normalizeStringsList_append (a b : List (String × XcStringEntry)) :
    normalizeStringsList (a ++ b)
      = normalizeStringsList a ++ normalizeStringsList b := by
  simp [normalizeStringsList, List.map_append, List.filter_append]

theorem normalize_with_appended (d : XcStringsFile) (k : String)
    (e : XcStringEntry) (he : normalizeStringsList [(k, e)] = []) :
    normalize_strings_file { d with strings := d.strings ++ [(k, e)] } =
      normalize_strings_file d := by
  simp only [normalize_strings_file, normalizeStringsList_append, he,
    List.append_nil]

/-- C10: clearing metadata of an absent key is a frame-preserving no-op — on a
normalized document, `set_comment`, `set_extraction_state` and
`set_should_translate` with an absent value and a key not in the catalog
return the document unchanged: the implicitly created Entry has no
localizations and no retained metadata, so normalization prunes it. -/
theorem C10_metadata_clear_noop (d : XcStringsFile) (key : String)
    (hnorm : normalize_strings_file d = d)
    (habs : containsKey d.strings key = false) :
    set_comment d key none = d ∧ set_extraction_state d key none = d ∧
      set_should_translate d key none = d := by
  refine ⟨?_, ?_, ?_⟩
  · unfold set_comment
    rw [entryModify_append key defaultEntry (fun e => { e with comment := none })
        habs,
      normalize_with_appended d key
        ((fun e => { e with comment := none }) defaultEntry) (by rfl), hnorm]
  · unfold set_extraction_state
    rw [entryModify_append key defaultEntry
        (fun e => { e with extraction_state := none }) habs,
      normalize_with_appended d key
        ((fun e => { e with extraction_state := none }) defaultEntry) (by rfl), hnorm]
  · unfold set_should_translate
    rw [entryModify_append key defaultEntry
        (fun e => { e with should_translate := none }) habs,
      normalize_with_appended d key
        ((fun e => { e with should_translate := none }) defaultEntry) (by rfl), hnorm]

/-- C10 witness: clearing metadata of an absent key on the default catalog. -/
theorem C10_witness :
    set_comment defaultFile "k" none = defaultFile ∧
    set_extraction_state defaultFile "k" none = defaultFile ∧
    set_should_translate defaultFile "k" none = defaultFile :=
  C10_metadata_clear_noop defaultFile "k" rfl rfl
theorem normLocsList_placeholder (t : String) :
    normLocsList [(t, placeholder_localization)] = [(t, placeholder_localization)] :=
  rfl

theorem normalizeStringsList_cons (x : String × XcStringEntry)
    (xs : List (String × XcStringEntry)) :
    normalizeStringsList (x :: xs) =
      if keepEntry (normalizeEntry x.2) then
        (x.1, normalizeEntry x.2) :: normalizeStringsList xs
      else normalizeStringsList xs := by
  simp only [normalizeStringsList, List.map_cons, List.filter_cons]

theorem lookup_some_mem {m : List (String × α)} {k : String} {v : α}
    (h : lookupKey? m k = some v) : ∃ p ∈ m, p.2 = v := by
  simp only [lookupKey?, Option.map_eq_some'] at h
  obtain ⟨p, hp, rfl⟩ := h
  exact ⟨p, List.mem_of_find?_eq_some hp, rfl⟩

theorem langInEntries_false_mem {d : XcStringsFile} {t : String}
    (h : langInEntries d t = false) :
    ∀ p ∈ d.strings, containsKey p.2.localizations t = false := by
  intro p hp
  cases hc : containsKey p.2.localizations t
  · rfl
  · exfalso
    have htrue : langInEntries d t = true := by
      simp only [langInEntries, List.any_eq_true]
      exact ⟨p, hp, hc⟩
    rw [htrue] at h
    simp at h

theorem addLang_entry_norm (t : String) (e : XcStringEntry)
    (hc : containsKey e.localizations t = false) :
    normalizeEntry
        ⟨e.comment, e.extraction_state,
          entryOrInsert e.localizations t placeholder_localization,
          e.should_translate⟩
      = ⟨e.comment, e.extraction_state,
          normLocsList e.localizations ++ [(t, placeholder_localization)],
          e.should_translate⟩ := by
  have h1 : entryOrInsert e.localizations t placeholder_localization
      = e.localizations ++ [(t, placeholder_localization)] := by
    simp [entryOrInsert, hc]
  simp only [normalizeEntry, h1, normLocsList_append, normLocsList_placeholder]

theorem addLang_entry_keep (t : String) (e : XcStringEntry)
    (hc : containsKey e.localizations t = false) :
    keepEntry (normalizeEntry
        ⟨e.comment, e.extraction_state,
          entryOrInsert e.localizations t placeholder_localization,
          e.should_translate⟩) = true := by
  rw [addLang_entry_norm t e hc]
  unfold keepEntry
  cases hnl : normLocsList e.localizations <;> simp

theorem addLang_lookup (t : String) (l : List (String × XcStringEntry))
    (key : String) (hmem : ∀ p ∈ l, containsKey p.2.localizations t = false) :
    ∀ e, lookupKey? l key = some e →
      lookupKey? (normalizeStringsList (l.map (fun p =>
        (p.1, ⟨p.2.comment, p.2.extraction_state,
          entryOrInsert p.2.localizations t placeholder_localization,
          p.2.should_translate⟩)))) key
      = some ⟨e.comment, e.extraction_state,
          normLocsList e.localizations ++ [(t, placeholder_localization)],
          e.should_translate⟩ := by
  induction l with
  | nil =>
    intro e he
    simp [lookupKey?] at he
  | cons hd tl ih =>
    intro e he
    obtain ⟨k1, e1⟩ := hd
    have hc1 := hmem (k1, e1) (by simp)
    simp only [List.map_cons, normalizeStringsList_cons]
    rw [addLang_entry_keep t e1 hc1]
    simp only [eq_self_iff_true, if_true]
    rw [addLang_entry_norm t e1 hc1]
    by_cases hk : k1 == key
    · simp only [lookupKey?, List.find?_cons, hk, eq_self_iff_true, if_true,
        Option.map_some'] at he ⊢
      cases he
      rfl
    · have hkf : (k1 == key) = false := by simpa using hk
      simp only [lookupKey?, List.find?_cons, hkf, Bool.false_eq_true,
        if_false] at he ⊢
      exact ih (fun p hp => hmem p (by simp [hp])) e he

/-- C6 counterexample: `add_language` trims the code before all checks, so a
padded spelling of the source language fails with `LanguageExists` although
the untrimmed code neither equals the source language nor appears in any
entry of the catalog. -/
theorem C6_counterexample :
    add_language defaultFile " en " = .error (.languageExists "en") ∧
    (" en " == "en") = false ∧ defaultFile.strings = [] ∧
    (strTrim " en ").data.isEmpty = false := ⟨rfl, rfl, rfl, rfl⟩

/-- C6 (amended): stated for the trimmed code — `add_language` fails with
`InvalidLanguage` iff the code is blank; otherwise fails with `LanguageExists`
iff the trimmed code equals the source language or appears as a localization
language in some Entry; otherwise it succeeds and inserts a placeholder
Localization (state `"needs-translation"`, no value) into every Entry, so a
subsequent `get_translation` for any pre-existing key and the trimmed code
returns `{value: absent, state: "needs-translation"}`. -/
theorem C6_add_language_amended (d : XcStringsFile) (code : String) :
    (add_language d code
        = .error (.invalidLanguage "Language code cannot be empty")
      ↔ (strTrim code).data.isEmpty = true) ∧
    ((strTrim code).data.isEmpty = false →
      (add_language d code = .error (.languageExists (strTrim code))
        ↔ (strTrim code == d.source_language
            || langInEntries d (strTrim code)) = true)) ∧
    ((strTrim code).data.isEmpty = false →
      (strTrim code == d.source_language
        || langInEntries d (strTrim code)) = false →
      ∃ d', add_language d code = .ok d' ∧
        ∀ (key : String) (e : XcStringEntry), lookupKey? d.strings key = some e →
          get_translation d' key (strTrim code)
            = some (.mk (some "needs-translation") none [] [])) := by
  refine ⟨?_, ?_, ?_⟩
  · constructor
    · intro h
      cases hb : (strTrim code).data.isEmpty
      · exfalso
        simp only [add_language, hb, Bool.false_eq_true, if_false] at h
        split at h <;> simp at h
      · rfl
    · intro hb
      simp [add_language, hb]
  · intro hb
    constructor
    · intro h
      cases hex : (strTrim code == d.source_language
          || langInEntries d (strTrim code))
      · exfalso
        simp only [add_language, hb, hex, Bool.false_eq_true, if_false] at h
        simp at h
      · rfl
    · intro hex
      simp [add_language, hb, hex]
  · intro hb hex
    have hex2 := (Bool.or_eq_false_iff.mp hex).2
    have hmem := langInEntries_false_mem hex2
    refine ⟨normalize_strings_file { d with strings := d.strings.map (fun p =>
      (p.1, (⟨p.2.comment, p.2.extraction_state,
        entryOrInsert p.2.localizations (strTrim code) placeholder_localization,
        p.2.should_translate⟩ : XcStringEntry))) }, ?_, ?_⟩
    · simp only [add_language, hb, hex, Bool.false_eq_true, if_false]
    · intro key e hke
      obtain ⟨p, hpmem, hpe⟩ := lookup_some_mem hke
      have hce : containsKey e.localizations (strTrim code) = false := by
        rw [← hpe]
        exact hmem p hpmem
      have hlk := addLang_lookup (strTrim code) d.strings key hmem e hke
      have hfin : (lookupKey? (normLocsList e.localizations
          ++ [(strTrim code, placeholder_localization)]) (strTrim code)).map
            TranslationValue.from_localization
          = some (TranslationValue.mk (some "needs-translation") none [] []) := by
        rw [lookupKey?_append_of_not (containsKey_normLocsList hce)]
        simp only [lookupKey?, List.find?_cons, beq_self_eq_true, if_true,
          Option.map_some']
        rfl
      simp only [get_translation, normalize_strings_file]
      rw [hlk]
      exact hfin

/-- C6 witness: blank, already-present and fresh language codes on a concrete
catalog, with the placeholder visible through `get_translation`. -/
theorem C6_witness :
    add_language docFr " "
      = .error (.invalidLanguage "Language code cannot be empty") ∧
    add_language docFr "fr" = .error (.languageExists "fr") ∧
    ∃ d', add_language docFr "de" = .ok d' ∧
      get_translation d' "greeting" "de"
        = some (.mk (some "needs-translation") none [] []) := by
  refine ⟨(C6_add_language_amended docFr " ").1.mpr rfl,
    ((C6_add_language_amended docFr "fr").2.1 rfl).mpr rfl, ?_⟩
  obtain ⟨d', h1, h2⟩ := (C6_add_language_amended docFr "de").2.2 rfl rfl
  exact ⟨d', h1, h2 "greeting" ⟨none, none, [("fr", locBonjour)], none⟩ rfl⟩

theorem containsKey_map_setkey (m : List (String × α)) (k k' : String) (v : α)
    (h : (k == k') = false) :
    containsKey (m.map (fun p => if p.1 == k then (k, v) else p)) k'
      = containsKey m k' := by
  induction m with
  | nil => rfl
  | cons hd tl ih =>
    simp only [List.map_cons, containsKey, List.any_cons]
    simp only [containsKey] at ih
    rw [ih]
    by_cases hk : hd.1 == k
    · have : hd.1 = k := by simpa using hk
      simp [hk, this, h]
    · simp [hk]

theorem containsKey_insertKey_ne (m : List (String × α)) (k k' : String) (v : α)
    (h : (k == k') = false) :
    containsKey (insertKey m k v) k' = containsKey m k' := by
  unfold insertKey
  split
  · exact containsKey_map_setkey m k k' v h
  · rw [containsKey_append]
    simp [containsKey, h]

theorem relocate_lookup (ot nt : String) (locs : List (String × XcLocalization))
    (hnt : containsKey locs nt = false) :
    lookupKey? (relocateLocs ot nt locs) nt = lookupKey? locs ot := by
  unfold relocateLocs
  cases hlo : lookupKey? locs ot with
  | none => exact lookupKey?_eq_none_iff.mpr hnt
  | some l =>
    show lookupKey? (insertKey (locs.filter (fun q => q.1 != ot)) nt l) nt = some l
    rw [insertKey_not_contains l (containsKey_filter_of_not hnt),
      lookupKey?_append_of_not (containsKey_filter_of_not hnt)]
    simp [lookupKey?, List.find?_cons]

theorem relocate_no_old (ot nt : String) (hne : (ot == nt) = false)
    (locs : List (String × XcLocalization)) :
    containsKey (relocateLocs ot nt locs) ot = false := by
  have hne2 : (nt == ot) = false := by
    simp only [beq_eq_false_iff_ne] at hne ⊢
    exact fun hx => hne hx.symm
  unfold relocateLocs
  cases hlo : lookupKey? locs ot with
  | none => exact lookupKey?_eq_none_iff.mp hlo
  | some l =>
    show containsKey (insertKey (locs.filter (fun q => q.1 != ot)) nt l) ot = false
    rw [containsKey_insertKey_ne _ nt ot l hne2]
    exact containsKey_removeKey_self locs ot

/-- C7 counterexample: renaming a language to itself succeeds even when it is
the source language (the no-op shortcut precedes the source-language check),
and renaming to the source language's code succeeds when no entry carries it
(the `LanguageExists` check inspects only entry localizations, never the
source language). Both contradict the claim's failure conditions. -/
theorem C7_counterexample :
    update_language defaultFile "en" "en" = .ok defaultFile ∧
    defaultFile.source_language = "en" ∧
    update_language docFr "fr" "en"
      = .ok { defaultFile with strings :=
          [("greeting", ⟨none, none, [("en", locBonjour)], none⟩)] } ∧
    docFr.source_language = "en" := ⟨rfl, rfl, rfl, rfl⟩

/-- C7 (amended): `update_language` trims both codes and errors with
`InvalidLanguage` on a blank code; a trimmed-equal pair is a no-op success
even for the source language; then it fails with `CannotRenameSourceLanguage`
when old equals the source language, `LanguageMissing` when old appears in no
Entry, and `LanguageExists` when new appears in some Entry's localizations
(the source language is not considered); otherwise it succeeds, relocating
each Entry's Localization under old to new (appended at the end), so the
relocated map answers lookups of new with old's Localization and no longer
contains old. -/
theorem C7_rename_language_amended (d : XcStringsFile) (oldL newL : String) :
    ((strTrim oldL).data.isEmpty = true →
      update_language d oldL newL
        = .error (.invalidLanguage "Language code cannot be empty")) ∧
    ((strTrim oldL).data.isEmpty = false → (strTrim newL).data.isEmpty = true →
      update_language d oldL newL
        = .error (.invalidLanguage "Language code cannot be empty")) ∧
    ((strTrim oldL).data.isEmpty = false → (strTrim newL).data.isEmpty = false →
      (strTrim oldL == strTrim newL) = true →
      update_language d oldL newL = .ok d) ∧
    ((strTrim oldL).data.isEmpty = false → (strTrim newL).data.isEmpty = false →
      (strTrim oldL == strTrim newL) = false →
      (strTrim oldL == d.source_language) = true →
      update_language d oldL newL
        = .error (.cannotRenameSourceLanguage (strTrim oldL))) ∧
    ((strTrim oldL).data.isEmpty = false → (strTrim newL).data.isEmpty = false →
      (strTrim oldL == strTrim newL) = false →
      (strTrim oldL == d.source_language) = false →
      langInEntries d (strTrim oldL) = false →
      update_language d oldL newL = .error (.languageMissing (strTrim oldL))) ∧
    ((strTrim oldL).data.isEmpty = false → (strTrim newL).data.isEmpty = false →
      (strTrim oldL == strTrim newL) = false →
      (strTrim oldL == d.source_language) = false →
      langInEntries d (strTrim oldL) = true →
      langInEntries d (strTrim newL) = true →
      update_language d oldL newL = .error (.languageExists (strTrim newL))) ∧
    ((strTrim oldL).data.isEmpty = false → (strTrim newL).data.isEmpty = false →
      (strTrim oldL == strTrim newL) = false →
      (strTrim oldL == d.source_language) = false →
      langInEntries d (strTrim oldL) = true →
      langInEntries d (strTrim newL) = false →
      update_language d oldL newL = .ok (normalize_strings_file
        { d with strings := d.strings.map (fun p =>
          (p.1, ⟨p.2.comment, p.2.extraction_state,
            relocateLocs (strTrim oldL) (strTrim newL) p.2.localizations,
            p.2.should_translate⟩)) })) ∧
    (∀ locs : List (String × XcLocalization),
      containsKey locs (strTrim newL) = false →
      lookupKey? (relocateLocs (strTrim oldL) (strTrim newL) locs) (strTrim newL)
        = lookupKey? locs (strTrim oldL)) ∧
    ((strTrim oldL == strTrim newL) = false →
      ∀ locs : List (String × XcLocalization),
        containsKey (relocateLocs (strTrim oldL) (strTrim newL) locs)
          (strTrim oldL) = false) := by
  refine ⟨?_, ?_, ?_, ?_, ?_, ?_, ?_, ?_, ?_⟩
  · intro h1
    simp [update_language, h1]
  · intro h1 h2
    simp [update_language, h1, h2]
  · intro h1 h2 h3
    simp [update_language, h1, h2, h3]
  · intro h1 h2 h3 h4
    simp [update_language, h1, h2, h3, h4]
  · intro h1 h2 h3 h4 h5
    simp [update_language, h1, h2, h3, h4, h5]
  · intro h1 h2 h3 h4 h5 h6
    simp [update_language, h1, h2, h3, h4, h5, h6]
  · intro h1 h2 h3 h4 h5 h6
    simp only [update_language, h1, h2, h3, h4, h5, h6, Bool.false_eq_true,
      if_false, Bool.not_false, if_true, Bool.not_true]
  · exact fun locs h => relocate_lookup (strTrim oldL) (strTrim newL) locs h
  · exact fun h locs => relocate_no_old (strTrim oldL) (strTrim newL) h locs

/-- C7 witness: the amended rename-language contract exercised on a concrete
catalog (blank code, trimmed-equal no-op, source language, missing language,
and a successful relocation). -/
theorem C7_witness :
    update_language docFr " " "de"
      = .error (.invalidLanguage "Language code cannot be empty") ∧
    update_language docFr "fr" " fr " = .ok docFr ∧
    update_language docFr "en" "de"
      = .error (.cannotRenameSourceLanguage "en") ∧
    update_language docFr "it" "de" = .error (.languageMissing "it") ∧
    update_language docFr "fr" "de" = .ok (normalize_strings_file
      { docFr with strings := docFr.strings.map (fun p =>
        (p.1, ⟨p.2.comment, p.2.extraction_state,
          relocateLocs "fr" "de" p.2.localizations,
          p.2.should_translate⟩)) }) ∧
    lookupKey? (relocateLocs "fr" "de" [("fr", locBonjour)]) "de"
      = some locBonjour :=
  ⟨(C7_rename_language_amended docFr " " "de").1 rfl,
    (C7_rename_language_amended docFr "fr" " fr ").2.2.1 rfl rfl rfl,
    (C7_rename_language_amended docFr "en" "de").2.2.2.1 rfl rfl rfl rfl,
    (C7_rename_language_amended docFr "it" "de").2.2.2.2.1 rfl rfl rfl rfl rfl,
    (C7_rename_language_amended docFr "fr" "de").2.2.2.2.2.2.1
      rfl rfl rfl rfl rfl rfl,
    (C7_rename_language_amended docFr "fr" "de").2.2.2.2.2.2.2.1
      [("fr", locBonjour)] rfl⟩

/-- C8 counterexample: upserting an all-absent update for a fresh key returns
the empty TranslationValue, while normalization prunes the merged Localization
and its Entry from the persisted document — the returned value is not the
content of the (key, language) Localization of the persisted document, which
does not exist. -/
theorem C8_counterexample :
    (doc_upsert defaultFile "k" "en" emptyUpdate).1 = .mk none none [] [] ∧
    ((doc_upsert defaultFile "k" "en" emptyUpdate).2).strings = [] ∧
    get_translation (doc_upsert defaultFile "k" "en" emptyUpdate).2 "k" "en"
      = none := ⟨rfl, rfl, rfl⟩

/-- C8 (amended): `upsert_translation` creates the Entry and Localization as
needed, applies the Update Engine, and returns the content of the merged
(key, language) Localization as it stands before normalization; the persisted
document is the normalization of the merged document, so when normalization
prunes that Localization or its Entry the returned value does not appear in
the persisted document. -/
theorem C8_upsert_amended (d : XcStringsFile) (key lang : String)
    (upd : TranslationUpdate) :
    (doc_upsert d key lang upd).1 = TranslationValue.from_localization
      (apply_update ((lookupKey?
        ((lookupKey? d.strings key).getD defaultEntry).localizations lang).getD
          defaultLoc) upd) ∧
    (doc_upsert d key lang upd).2
      = normalize_strings_file { d with strings := upsertStrings d key lang upd } := by
  constructor
  · have h1 := lookup_entryModify_self key defaultEntry
      (fun e => (⟨e.comment, e.extraction_state,
        entryModify lang defaultLoc (fun l => apply_update l upd) e.localizations,
        e.should_translate⟩ : XcStringEntry)) d.strings
    have h2 := lookup_entryModify_self lang defaultLoc
      (fun l => apply_update l upd)
      ((lookupKey? d.strings key).getD defaultEntry).localizations
    simp only [doc_upsert, upsertStrings]
    rw [h1]
    simp only [Option.some_bind, Option.getD_some]
    rw [h2]
    simp only [Option.getD_some]
  · rfl

theorem lookup_map_setkey (m : List (String × α)) (k : String) (v : α) :
    lookupKey? (m.map (fun p => if p.1 == k then (k, v) else p)) k
      = if containsKey m k then some v else none := by
  induction m with
  | nil => simp [lookupKey?, containsKey]
  | cons hd tl ih =>
    by_cases hk : hd.1 == k
    · have hk' : hd.1 = k := by simpa using hk
      subst hk'
      simp [lookupKey?, List.find?_cons, containsKey, List.any_cons]
    · have hkf : (hd.1 == k) = false := by simpa using hk
      simp only [List.map_cons, lookupKey?, List.find?_cons, hkf,
        Bool.false_eq_true, if_false, containsKey, List.any_cons,
        Bool.false_or]
      simp only [lookupKey?, containsKey] at ih
      exact ih

theorem lookup_insertKey_self (m : List (String × α)) (k : String) (v : α) :
    lookupKey? (insertKey m k v) k = some v := by
  unfold insertKey
  split
  · rename_i hc
    rw [lookup_map_setkey, if_pos hc]
  · rename_i hc
    have hcf : containsKey m k = false := by
      cases hx : containsKey m k
      · rfl
      · exact absurd hx hc
    rw [lookupKey?_append_of_not hcf]
    simp [lookupKey?, List.find?_cons]

/-- C9: key-order preservation through serialization. Upserting A, B, C from
an empty catalog and then updating B keeps serialized member order A, B, C in
`strings`; a subsequent upsert of D places it after C; in general `strings`
serializes as the object whose members follow the in-memory ordered mapping's
traversal order (and every JSON object's member names are its list in order),
and in the emitted bytes the keys appear in that order. -/
theorem C9_key_order_preserved :
    memberNames ((objGet (XcStringsFile.to_json_value c9d4) "strings").getD .null)
      = ["A", "B", "C"] ∧
    memberNames ((objGet (XcStringsFile.to_json_value c9d5) "strings").getD .null)
      = ["A", "B", "C", "D"] ∧
    (∀ ms : List (String × JsonValue), memberNames (.obj ms) = ms.map (·.1)) ∧
    (∀ d : XcStringsFile, objGet (XcStringsFile.to_json_value d) "strings"
      = some (.obj (d.strings.map (fun p => (p.1, entry_to_json p.2))))) ∧
    ((strPos (to_apple_format (XcStringsFile.to_json_value c9d5)) "\"A\" : ").getD 9000
        < (strPos (to_apple_format (XcStringsFile.to_json_value c9d5)) "\"B\" : ").getD 0
      ∧ (strPos (to_apple_format (XcStringsFile.to_json_value c9d5)) "\"B\" : ").getD 9000
        < (strPos (to_apple_format (XcStringsFile.to_json_value c9d5)) "\"C\" : ").getD 0
      ∧ (strPos (to_apple_format (XcStringsFile.to_json_value c9d5)) "\"C\" : ").getD 9000
        < (strPos (to_apple_format (XcStringsFile.to_json_value c9d5)) "\"D\" : ").getD 0) := by
  refine ⟨rfl, rfl, fun ms => rfl, ?_, ?_⟩
  · intro d
    simp only [XcStringsFile.to_json_value, objGet]
    exact lookup_insertKey_self _ _ _
  · set_option maxRecDepth 100000 in decide
